import Mathlib

set_option maxRecDepth 8000

/-!
Verification of the crate-loader subsystem (`compiler/rustc_metadata/src/creader.rs`
and `compiler/rustc_watt_runtime/src/metadata.rs`) against its specification.

The Rust sources are shallowly embedded: interned symbols and canonicalized
paths become `Nat` identifiers, the crate store `metas : IndexVec<CrateNum,
Option<Box<CrateMetadata>>>` becomes a `List (Option CrateMetadataM)` indexed
by position, and fallible or panicking code returns `Option`/`Except`.
Components that live outside the embedded files (the locator, the blob
decoder, `PathKind::matches`) are kept abstract as parameters, or modelled
from the spec where noted.
-/

/-- A crate-file source entry: for each of dylib/rlib/rmeta, optionally the
(normalized) path together with the `PathKind` under which it was found.
Path and path-kind are abstract identifiers (`Nat`).
Mirrors `rustc_session::cstore::CrateSource` as used in `creader.rs`. -/
structure CrateSourceM where
  dylib : Option (Nat × Nat) := none
  rlib : Option (Nat × Nat) := none
  rmeta : Option (Nat × Nat) := none
deriving DecidableEq, Repr

/-- Panic strategies (`rustc_target::spec::PanicStrategy`). -/
inductive PanicStrategyM
  | unwind
  | abort
  | immediateAbort
deriving DecidableEq, Repr

/-- The fields of a stored `CrateMetadata` that the claims under verification
consult (`data.name()`, `data.hash()`, `data.source()`, and the panic-runtime
role flags). -/
structure CrateMetadataM where
  name : Nat
  hash : Nat
  source : CrateSourceM := {}
  needsPanicRuntime : Bool := false
  isPanicRuntime : Bool := false
  requiredPanicStrategy : Option PanicStrategyM := none
deriving DecidableEq, Repr

/-- One `--extern` entry as the probe sees it: `files` is `some paths` for an
`--extern name=path,...` entry (paths already canonicalized, mirroring
`l.canonicalized()` at the use site) and `none` for a pathless `--extern name`
entry; `isPrivateDep` records the `priv:` modifier. -/
structure ExternEntryM where
  files : Option (List Nat) := none
  isPrivateDep : Bool := false
deriving DecidableEq, Repr

/-- The `--extern` map, keyed by crate name. -/
def ExternsM : Type := Nat → Option ExternEntryM

/-- `CStore::iter_crate_data` with explicit indices: enumerate `metas` in
ascending `CrateNum` order, skipping empty slots. `iterFrom i` enumerates
starting at index `i`. -/
def iterFrom (i : Nat) : List (Option CrateMetadataM) → List (Nat × CrateMetadataM)
  | [] => []
  | none :: rest => iterFrom (i + 1) rest
  | some d :: rest => (i, d) :: iterFrom (i + 1) rest

/-- `CStore::iter_crate_data` (creader.rs:278-282). -/
def iterCrateData (metas : List (Option CrateMetadataM)) : List (Nat × CrateMetadataM) :=
  iterFrom 0 metas

/-- Whether one of the candidate's source paths (dylib, rlib or rmeta) equals
the canonicalized `--extern` path `l` (the `files.any` closure in
`existing_match`, creader.rs:712-717). -/
def sourcePathMatches (src : CrateSourceM) (l : Nat) : Bool :=
  src.dylib.map Prod.fst == some l
    || src.rlib.map Prod.fst == some l
    || src.rmeta.map Prod.fst == some l

/-- The path-kind under which the candidate was originally found:
`source.dylib.or(source.rlib).or(source.rmeta)` and then the kind component
(creader.rs:730-736). The Rust code `.expect`s this to be present; the model
returns an `Option` and the relevant theorems assume the store invariant that
at least one source is present. -/
def prevKindOf (src : CrateSourceM) : Option Nat :=
  (src.dylib <|> src.rlib <|> src.rmeta).map Prod.snd

/-- The per-candidate acceptance test of `CStore::existing_match`
(creader.rs:684-745), with the loop's `continue`/`return Some` flow folded
into a boolean. `kmatches` stands for the external `PathKind::matches`
policy (defined in `rustc_session`, outside the embedded sources). -/
def candidateMatches (kmatches : Nat → Nat → Bool) (externs : ExternsM)
    (name : Nat) (hash : Option Nat) (kind : Nat) (data : CrateMetadataM) : Bool :=
  if data.name != name then false
  else
    match hash with
    | some h => h == data.hash
    | none =>
      match externs name with
      | some entry =>
        match entry.files with
        | some files => files.any (fun l => sourcePathMatches data.source l)
        | none => false
      | none =>
        match prevKindOf data.source with
        | some pk => kmatches kind pk
        | none => false

/-- `CStore::existing_match` (creader.rs:677-748): scan the store in crate-num
order and return the first candidate accepted by `candidateMatches`. -/
def existing_match (kmatches : Nat → Nat → Bool) (externs : ExternsM)
    (name : Nat) (hash : Option Nat) (kind : Nat)
    (metas : List (Option CrateMetadataM)) : Option Nat :=
  ((iterCrateData metas).find? (fun p => candidateMatches kmatches externs name hash kind p.2)).map
    Prod.fst

/-- The per-candidate condition exactly as claim C1 words it: name equality;
the hash constraint when a hash was supplied; and, independently of the hash,
the `--extern`-path condition when an entry with at least one path exists,
otherwise the path-kind condition. -/
def c1ClaimCandidate (kmatches : Nat → Nat → Bool) (externs : ExternsM)
    (name : Nat) (hash : Option Nat) (kind : Nat) (data : CrateMetadataM) : Bool :=
  data.name == name
    && (match hash with
        | some h => data.hash == h
        | none => true)
    && (match externs name with
        | some entry =>
          match entry.files with
          | some (l :: ls) => (l :: ls).any (fun x => sourcePathMatches data.source x)
          | _ =>
            match prevKindOf data.source with
            | some pk => kmatches kind pk
            | none => false
        | none =>
          match prevKindOf data.source with
          | some pk => kmatches kind pk
          | none => false)

/-- Claim C1 as stated, at a given input: the probe succeeds exactly when some
stored candidate satisfies all the claim's conditions. -/
def C1ClaimAt (kmatches : Nat → Nat → Bool) (externs : ExternsM)
    (name : Nat) (hash : Option Nat) (kind : Nat)
    (metas : List (Option CrateMetadataM)) : Prop :=
  (existing_match kmatches externs name hash kind metas).isSome =
    (iterCrateData metas).any (fun p => c1ClaimCandidate kmatches externs name hash kind p.2)

/-- Origin tag of a crate resolution (`CrateOrigin`, creader.rs:161-175); the
indirect-dependency payload is reduced to what `is_private_dep` consults. -/
inductive CrateOriginM
  | indirect (parentPrivate : Bool) (depIsPrivate : Bool)
  | injected
  | externDecl
deriving DecidableEq, Repr

/-- `CStore::is_private_dep` (creader.rs:760-779): the `--extern` privacy of
the name combined with the `private_dep` hint, with `Injected` forced
private. The match arms are in source order. -/
def is_private_dep (externs : ExternsM) (name : Nat) (privateDep : Option Bool)
    (origin : CrateOriginM) : Bool :=
  match origin with
  | CrateOriginM.injected => true
  | _ =>
    match (externs name).map ExternEntryM.isPrivateDep, privateDep with
    | some false, _ => false
    | _, some false => false
    | none, none => false
    | _, _ => true

/-- Claim C2's condition as stated: private iff injected, or `--extern priv:`
marked it private, or no `--extern` entry exists and the parent hint says
private. -/
def c2ClaimPrivate (externs : ExternsM) (name : Nat) (privateDep : Option Bool)
    (origin : CrateOriginM) : Bool :=
  origin == CrateOriginM.injected
    || (externs name).map ExternEntryM.isPrivateDep == some true
    || ((externs name).isNone && privateDep == some true)

/-- Claim C2 as stated, at a given input. -/
def C2ClaimAt (externs : ExternsM) (name : Nat) (privateDep : Option Bool)
    (origin : CrateOriginM) : Prop :=
  is_private_dep externs name privateDep origin = c2ClaimPrivate externs name privateDep origin

/-- The per-candidate condition that `existing_match` actually implements,
stated declaratively (the amended form of claim C1): a supplied hash that
matches accepts the candidate outright; only when no hash was supplied do the
`--extern`-path and path-kind conditions apply, and an `--extern` entry
without explicit paths rejects the candidate. -/
def c1AmendedCandidate (kmatches : Nat → Nat → Bool) (externs : ExternsM)
    (name : Nat) (hash : Option Nat) (kind : Nat) (data : CrateMetadataM) : Prop :=
  data.name = name ∧
    (match hash with
     | some h => data.hash = h
     | none =>
       match externs name with
       | some entry =>
         ∃ files, entry.files = some files ∧
           ∃ l ∈ files, sourcePathMatches data.source l = true
       | none => ∃ pk, prevKindOf data.source = some pk ∧ kmatches kind pk = true)

lemma candidateMatches_iff (kmatches : Nat → Nat → Bool) (externs : ExternsM)
    (name : Nat) (hash : Option Nat) (kind : Nat) (data : CrateMetadataM)
    (hsrc : (prevKindOf data.source).isSome = true) :
    candidateMatches kmatches externs name hash kind data = true ↔
      c1AmendedCandidate kmatches externs name hash kind data := by
  obtain ⟨pk, hpk⟩ := Option.isSome_iff_exists.mp hsrc
  by_cases hname : data.name = name
  · cases hash with
    | some h =>
      simp only [candidateMatches, c1AmendedCandidate, hname, bne_self_eq_false,
        Bool.false_eq_true, if_false, beq_iff_eq, true_and]
      exact eq_comm
    | none =>
      cases hex : externs name with
      | none => simp [candidateMatches, c1AmendedCandidate, hname, hex, hpk]
      | some entry =>
        cases hf : entry.files with
        | none => simp [candidateMatches, c1AmendedCandidate, hname, hex, hf]
        | some files =>
          simp [candidateMatches, c1AmendedCandidate, hname, hex, hf, List.any_eq_true]
  · simp [candidateMatches, c1AmendedCandidate, hname]

/-- Claim C1 (corrected): the amended per-candidate condition
`c1AmendedCandidate` characterizes exactly when the probe succeeds, given the
store invariant that every stored crate has at least one source file. -/
theorem c1_existing_match_amended (kmatches : Nat → Nat → Bool) (externs : ExternsM)
    (name : Nat) (hash : Option Nat) (kind : Nat)
    (metas : List (Option CrateMetadataM))
    (hsrc : ∀ p ∈ iterCrateData metas, (prevKindOf p.2.source).isSome = true) :
    (∃ c, existing_match kmatches externs name hash kind metas = some c) ↔
      ∃ cnum data, (cnum, data) ∈ iterCrateData metas ∧
        c1AmendedCandidate kmatches externs name hash kind data := by
  unfold existing_match
  constructor
  · rintro ⟨c, hc⟩
    rw [Option.map_eq_some'] at hc
    obtain ⟨p, hp, -⟩ := hc
    have hmem := List.mem_of_find?_eq_some hp
    have hpred := List.find?_some hp
    exact ⟨p.1, p.2, hmem,
      (candidateMatches_iff kmatches externs name hash kind p.2 (hsrc p hmem)).mp hpred⟩
  · rintro ⟨cnum, data, hmem, hcand⟩
    have hsome :
        ((iterCrateData metas).find?
          (fun p => candidateMatches kmatches externs name hash kind p.2)).isSome = true := by
      rw [List.find?_isSome]
      exact ⟨(cnum, data), hmem,
        (candidateMatches_iff kmatches externs name hash kind data (hsrc _ hmem)).mpr hcand⟩
    obtain ⟨p, hp⟩ := Option.isSome_iff_exists.mp hsome
    exact ⟨p.1, by rw [hp]; rfl⟩

/-- Witness for `c1_existing_match_amended` at a concrete store. -/
theorem c1_witness :
    (∃ c, existing_match (fun k pk => k == pk) (fun _ => none) 0 none 3
        [some ⟨0, 1, ⟨some (2, 3), none, none⟩, false, false, none⟩] = some c) ↔
      ∃ cnum data,
        (cnum, data) ∈ iterCrateData
          [some ⟨0, 1, ⟨some (2, 3), none, none⟩, false, false, none⟩] ∧
        c1AmendedCandidate (fun k pk => k == pk) (fun _ => none) 0 none 3 data :=
  c1_existing_match_amended (fun k pk => k == pk) (fun _ => none) 0 none 3
    [some ⟨0, 1, ⟨some (2, 3), none, none⟩, false, false, none⟩] (by decide)

/-- Counterexample to claim C1 as stated: with a supplied hash that matches,
`existing_match` accepts the candidate without consulting the path-kind
policy, so with a policy that matches nothing the probe still succeeds while
the claim's conjunction of conditions fails. -/
theorem c1_counterexample :
    ¬ C1ClaimAt (fun _ _ => false) (fun _ => none) 0 (some 5) 0
        [none, some ⟨0, 5, ⟨some (7, 0), none, none⟩, false, false, none⟩] := by
  unfold C1ClaimAt
  decide

/-- Claim C2 (corrected): `is_private_dep` returns true exactly when the
origin is `Injected`, or else neither the `--extern` entry nor the parent
hint explicitly says public and at least one of them says private. -/
theorem c2_is_private_dep_amended (externs : ExternsM) (name : Nat)
    (privateDep : Option Bool) (origin : CrateOriginM) :
    is_private_dep externs name privateDep origin = true ↔
      (origin = CrateOriginM.injected ∨
        ((externs name).map ExternEntryM.isPrivateDep ≠ some false ∧
          privateDep ≠ some false ∧
          ((externs name).map ExternEntryM.isPrivateDep = some true ∨
            privateDep = some true))) := by
  cases origin with
  | injected => simp [is_private_dep]
  | indirect pp dp =>
    rcases hep : (externs name).map ExternEntryM.isPrivateDep with _ | b <;>
      rcases privateDep with _ | c <;>
      first
        | (cases b <;> cases c <;> simp [is_private_dep, hep])
        | (cases b <;> simp [is_private_dep, hep])
        | (cases c <;> simp [is_private_dep, hep])
        | simp [is_private_dep, hep]
  | externDecl =>
    rcases hep : (externs name).map ExternEntryM.isPrivateDep with _ | b <;>
      rcases privateDep with _ | c <;>
      first
        | (cases b <;> cases c <;> simp [is_private_dep, hep])
        | (cases b <;> simp [is_private_dep, hep])
        | (cases c <;> simp [is_private_dep, hep])
        | simp [is_private_dep, hep]

/-- Counterexample to claim C2 as stated: with `--extern priv:name` present
but the parent hint explicitly public (`Some(false)`), the code returns
public while the claim's disjunction says private. -/
theorem c2_counterexample :
    ¬ C2ClaimAt (fun _ => some ⟨none, true⟩) 0 (some false) CrateOriginM.externDecl := by
  unfold C2ClaimAt
  decide

/-- Dependency kinds (`rustc_session::cstore::CrateDepKind`). The enum lives
outside the embedded sources; modelled from the spec: the kinds are
`MacrosOnly`, `Implicit`, `Explicit`, and `dep_kind` "monotonically increases
over the crate's lifetime via `max`", ascending from macros-only use toward
explicit linkage. -/
inductive CrateDepKindM
  | macrosOnly
  | implicit
  | explicitDep
deriving DecidableEq, Repr

/-- Numeric height of a dependency kind in the `max` order. -/
def CrateDepKindM.rank : CrateDepKindM → Nat
  | CrateDepKindM.macrosOnly => 0
  | CrateDepKindM.implicit => 1
  | CrateDepKindM.explicitDep => 2

/-- `cmp::max` on dependency kinds (returns the second argument on ties, as
`cmp::max` does). -/
def maxDepKind (a b : CrateDepKindM) : CrateDepKindM :=
  if a.rank ≤ b.rank then b else a

/-- The mutable fields of a stored entry that the probe-hit update touches,
plus the immutable proc-macro flag. -/
structure EntryStateM where
  depKind : CrateDepKindM
  privateDep : Bool
  procMacroCrate : Bool
deriving DecidableEq, Repr

/-- The existing-entry update performed on a probe hit
(`maybe_resolve_crate`, creader.rs:1026-1040): recompute the incoming privacy,
force the incoming kind to `MacrosOnly` for a proc-macro entry, raise
`dep_kind` through `cmp::max`, and fold the privacy observation in. The body
of `update_and_private_dep` lives in the blob-decoder module outside the
embedded sources; modelled from the spec: "`private_dep` may transition from
true to false but never back" and "a *public* observation anywhere in the
graph downgrades the crate to public permanently", i.e. an AND with the
incoming observation. -/
def updateOnHit (e : EntryStateM) (incomingKind : CrateDepKindM)
    (incomingPrivate : Bool) : EntryStateM :=
  let dk := if e.procMacroCrate then CrateDepKindM.macrosOnly else incomingKind
  { e with
      depKind := maxDepKind e.depKind dk,
      privateDep := e.privateDep && incomingPrivate }

/-- A sequence of probe-hit updates applied to one entry. -/
def applyUpdates (e : EntryStateM) (us : List (CrateDepKindM × Bool)) : EntryStateM :=
  us.foldl (fun s u => updateOnHit s u.1 u.2) e

lemma rank_le_maxDepKind_left (a b : CrateDepKindM) :
    a.rank ≤ (maxDepKind a b).rank := by
  unfold maxDepKind
  split
  · assumption
  · exact Nat.le_refl _

lemma updateOnHit_invariants (e : EntryStateM) (k : CrateDepKindM) (p : Bool) :
    e.depKind.rank ≤ (updateOnHit e k p).depKind.rank ∧
      ((updateOnHit e k p).privateDep = true → e.privateDep = true) ∧
      (updateOnHit e k p).procMacroCrate = e.procMacroCrate ∧
      (e.procMacroCrate = true → e.depKind = CrateDepKindM.macrosOnly →
        (updateOnHit e k p).depKind = CrateDepKindM.macrosOnly) := by
  refine ⟨rank_le_maxDepKind_left _ _, ?_, rfl, ?_⟩
  · intro h
    have := congrArg EntryStateM.privateDep (rfl : updateOnHit e k p = updateOnHit e k p)
    simp only [updateOnHit] at h
    exact (Bool.and_eq_true _ _ ▸ h).1
  · intro hpm hdk
    simp [updateOnHit, hpm, hdk, maxDepKind, CrateDepKindM.rank]

/-- Claim C3: across any sequence of probe-hit updates, an entry's `dep_kind`
never decreases, its `private_dep` never returns from public to private, the
proc-macro flag is untouched, and a proc-macro entry (which is created with
`MacrosOnly`, creader.rs:1010) keeps `dep_kind = MacrosOnly` after every
update. -/
theorem c3_monotone_update (e : EntryStateM) (us : List (CrateDepKindM × Bool))
    (hpm : e.procMacroCrate = true → e.depKind = CrateDepKindM.macrosOnly) :
    e.depKind.rank ≤ (applyUpdates e us).depKind.rank ∧
      ((applyUpdates e us).privateDep = true → e.privateDep = true) ∧
      (applyUpdates e us).procMacroCrate = e.procMacroCrate ∧
      (e.procMacroCrate = true →
        (applyUpdates e us).depKind = CrateDepKindM.macrosOnly) := by
  induction us generalizing e with
  | nil =>
    exact ⟨Nat.le_refl _, fun h => h, rfl, hpm⟩
  | cons u us ih =>
    obtain ⟨h1, h2, h3, h4⟩ := updateOnHit_invariants e u.1 u.2
    have hpm' : (updateOnHit e u.1 u.2).procMacroCrate = true →
        (updateOnHit e u.1 u.2).depKind = CrateDepKindM.macrosOnly := by
      intro h
      exact h4 (h3 ▸ h) (hpm (h3 ▸ h))
    obtain ⟨g1, g2, g3, g4⟩ := ih (updateOnHit e u.1 u.2) hpm'
    refine ⟨Nat.le_trans h1 g1, fun h => h2 (g2 h), g3.trans h3, ?_⟩
    intro h
    exact g4 (h3.symm ▸ h)

/-- Witness for `c3_monotone_update` on a proc-macro entry. -/
theorem c3_witness :
    (⟨CrateDepKindM.macrosOnly, true, true⟩ : EntryStateM).depKind.rank ≤
        (applyUpdates ⟨CrateDepKindM.macrosOnly, true, true⟩
          [(CrateDepKindM.explicitDep, false)]).depKind.rank ∧
      ((applyUpdates ⟨CrateDepKindM.macrosOnly, true, true⟩
          [(CrateDepKindM.explicitDep, false)]).privateDep = true →
        (⟨CrateDepKindM.macrosOnly, true, true⟩ : EntryStateM).privateDep = true) ∧
      (applyUpdates ⟨CrateDepKindM.macrosOnly, true, true⟩
          [(CrateDepKindM.explicitDep, false)]).procMacroCrate =
        (⟨CrateDepKindM.macrosOnly, true, true⟩ : EntryStateM).procMacroCrate ∧
      ((⟨CrateDepKindM.macrosOnly, true, true⟩ : EntryStateM).procMacroCrate = true →
        (applyUpdates ⟨CrateDepKindM.macrosOnly, true, true⟩
          [(CrateDepKindM.explicitDep, false)]).depKind = CrateDepKindM.macrosOnly) :=
  c3_monotone_update ⟨CrateDepKindM.macrosOnly, true, true⟩
    [(CrateDepKindM.explicitDep, false)] (by intro h; rfl)

/-- Outcome of the duplicate-collapse step in `CStore::load`. -/
inductive LoadOutcomeM
  | previous (cnum : Nat)
  | loaded
  | assertFailed
deriving DecidableEq, Repr

/-- The duplicate-collapse step of `CStore::load` (creader.rs:1050-1074),
given the locator's hash constraint and the root name/hash of the freshly
loaded library: scan the store; on the first entry with equal name and hash,
assert that the locator had no hash constraint (`assert!(locator.hash.is_none())`)
and collapse onto the previous crate number; otherwise keep the loaded
library. -/
def loadCollapse (locatorHash : Option Nat) (metas : List (Option CrateMetadataM))
    (rootName rootHash : Nat) : LoadOutcomeM :=
  match (iterCrateData metas).find? (fun p => p.2.name == rootName && rootHash == p.2.hash) with
  | some (cnum, _) =>
    if locatorHash.isSome then LoadOutcomeM.assertFailed else LoadOutcomeM.previous cnum
  | none => LoadOutcomeM.loaded

/-- No two stored crates share the pair (name, hash). -/
def distinctNameHash (metas : List (Option CrateMetadataM)) : Prop :=
  (iterCrateData metas).Pairwise (fun a b => ¬(a.2.name = b.2.name ∧ a.2.hash = b.2.hash))

lemma iterFrom_append (i : Nat) (l1 l2 : List (Option CrateMetadataM)) :
    iterFrom i (l1 ++ l2) = iterFrom i l1 ++ iterFrom (i + l1.length) l2 := by
  induction l1 generalizing i with
  | nil => simp [iterFrom]
  | cons a t ih =>
    have harith : i + (t.length + 1) = i + 1 + t.length := by omega
    cases a with
    | none =>
      show iterFrom (i + 1) (t ++ l2) = iterFrom (i + 1) t ++ iterFrom (i + (t.length + 1)) l2
      rw [ih, harith]
    | some d =>
      show (i, d) :: iterFrom (i + 1) (t ++ l2) =
        (i, d) :: (iterFrom (i + 1) t ++ iterFrom (i + (t.length + 1)) l2)
      rw [ih, harith]

/-- Claim C4: if a stored crate shares (name, hash) with the freshly loaded
root, `load` collapses onto its crate number (`LoadResult::Previous`); and
when no duplicate exists (the library is kept), registering the new entry
preserves the invariant that no two stored crates share (name, hash). -/
theorem c4_duplicate_collapse (metas : List (Option CrateMetadataM))
    (root : CrateMetadataM) :
    ((∃ p ∈ iterCrateData metas, p.2.name = root.name ∧ p.2.hash = root.hash) →
      ∃ c d, loadCollapse none metas root.name root.hash = LoadOutcomeM.previous c ∧
        (c, d) ∈ iterCrateData metas ∧ d.name = root.name ∧ d.hash = root.hash) ∧
    (loadCollapse none metas root.name root.hash = LoadOutcomeM.loaded →
      distinctNameHash metas → distinctNameHash (metas ++ [some root])) := by
  constructor
  · rintro ⟨p, hmem, hn, hh⟩
    have hsome :
        ((iterCrateData metas).find?
          (fun p => p.2.name == root.name && root.hash == p.2.hash)).isSome = true := by
      rw [List.find?_isSome]
      exact ⟨p, hmem, by simp [hn, hh]⟩
    obtain ⟨q, hq⟩ := Option.isSome_iff_exists.mp hsome
    have hqmem := List.mem_of_find?_eq_some hq
    have hqpred := List.find?_some hq
    simp only [Bool.and_eq_true, beq_iff_eq] at hqpred
    refine ⟨q.1, q.2, ?_, hqmem, hqpred.1, hqpred.2.symm⟩
    simp [loadCollapse, hq]
  · intro hload hdist
    have hnone :
        ((iterCrateData metas).find?
          (fun p => p.2.name == root.name && root.hash == p.2.hash)) = none := by
      cases hfind : (iterCrateData metas).find?
          (fun p => p.2.name == root.name && root.hash == p.2.hash) with
      | none => rfl
      | some q =>
        exfalso
        simp [loadCollapse, hfind] at hload
    have hall := List.find?_eq_none.mp hnone
    unfold distinctNameHash
    unfold iterCrateData
    rw [iterFrom_append]
    rw [List.pairwise_append]
    refine ⟨hdist, by simp [iterFrom], ?_⟩
    intro a ha b hb
    have hb' : b = (0 + metas.length, root) := by
      simpa [iterFrom] using hb
    subst hb'
    intro hcontra
    have := hall a ha
    simp only [Bool.and_eq_true, beq_iff_eq, not_and] at this
    exact absurd (hcontra.2.symm) (this hcontra.1)

/-- Witness for `c4_duplicate_collapse`: a store already holding (name 7,
hash 9) collapses a fresh load of the same pair onto crate number 0. -/
theorem c4_witness :
    ∃ c d,
      loadCollapse none [some ⟨7, 9, {}, false, false, none⟩] 7 9 =
        LoadOutcomeM.previous c ∧
      (c, d) ∈ iterCrateData [some ⟨7, 9, {}, false, false, none⟩] ∧
      d.name = 7 ∧ d.hash = 9 :=
  (c4_duplicate_collapse [some ⟨7, 9, {}, false, false, none⟩]
    ⟨7, 9, {}, false, false, none⟩).1 (by decide)

/-- Requested output crate types; `inject_panic_runtime` only distinguishes
`Rlib` from everything else (`CrateType`, rustc_session). -/
inductive CrateTypeM
  | rlib
  | executable
  | dylibType
  | staticlib
  | cdylib
deriving DecidableEq, Repr

/-- The typed errors `inject_panic_runtime` can emit
(creader.rs:1254-1260). -/
inductive PanicErrorM
  | crateNotPanicRuntime
  | noPanicStrategy
deriving DecidableEq, Repr

/-- Observable effect of `inject_panic_runtime`: whether `resolve_crate` was
invoked and for which well-known crate name, the recorded
`injected_panic_runtime`, and the emitted typed errors. `resolvedName = none`
means the store and `injected_panic_runtime` were left untouched. -/
structure InjectResultM where
  resolvedName : Option String
  injected : Option Nat
  errors : List PanicErrorM
deriving DecidableEq, Repr

/-- The tail of `inject_panic_runtime` after a name was chosen
(creader.rs:1245-1262): run `resolve_crate` (outcome supplied by the
`resolveResult` oracle, paired with the resolved crate's stored metadata);
on failure return without recording; on success emit `CrateNotPanicRuntime`
and/or `NoPanicStrategy` for the failed shape checks and record the crate
number. -/
def injectResolve (name : String) (strategy : PanicStrategyM)
    (resolveResult : Option (Nat × CrateMetadataM)) : InjectResultM :=
  match resolveResult with
  | none => ⟨some name, none, []⟩
  | some (cnum, data) =>
    ⟨some name, some cnum,
      (if !data.isPanicRuntime then [PanicErrorM.crateNotPanicRuntime] else []) ++
        (if data.requiredPanicStrategy ≠ some strategy then [PanicErrorM.noPanicStrategy]
         else [])⟩

/-- `CStore::inject_panic_runtime` (creader.rs:1202-1263): skip when only
rlibs are produced; skip when neither the local crate nor any loaded crate
needs a panic runtime; choose the well-known crate per strategy
(`ImmediateAbort` needs none); then resolve, check, and record. -/
def inject_panic_runtime (crateTypes : List CrateTypeM) (localNeeds : Bool)
    (metas : List (Option CrateMetadataM)) (strategy : PanicStrategyM)
    (resolveResult : Option (Nat × CrateMetadataM)) : InjectResultM :=
  let onlyRlib := crateTypes.all (fun ct => ct == CrateTypeM.rlib)
  if onlyRlib then ⟨none, none, []⟩
  else
    let needs := localNeeds || (iterCrateData metas).any (fun p => p.2.needsPanicRuntime)
    if !needs then ⟨none, none, []⟩
    else
      match strategy with
      | PanicStrategyM.unwind =>
        injectResolve "panic_unwind" PanicStrategyM.unwind resolveResult
      | PanicStrategyM.abort =>
        injectResolve "panic_abort" PanicStrategyM.abort resolveResult
      | PanicStrategyM.immediateAbort => ⟨none, none, []⟩

/-- The claim's no-op condition for panic-runtime injection. -/
def c6NoopCond (crateTypes : List CrateTypeM) (localNeeds : Bool)
    (metas : List (Option CrateMetadataM)) (strategy : PanicStrategyM) : Prop :=
  (∀ ct ∈ crateTypes, ct = CrateTypeM.rlib) ∨
    (localNeeds = false ∧ ∀ p ∈ iterCrateData metas, p.2.needsPanicRuntime = false) ∨
    strategy = PanicStrategyM.immediateAbort

lemma injectResolve_resolvedName (name : String) (strategy : PanicStrategyM)
    (r : Option (Nat × CrateMetadataM)) :
    (injectResolve name strategy r).resolvedName = some name := by
  rcases r with _ | ⟨c, d⟩ <;> rfl

lemma injectResolve_spec (name : String) (strategy : PanicStrategyM) (cnum : Nat)
    (data : CrateMetadataM) :
    (injectResolve name strategy (some (cnum, data))).injected = some cnum ∧
      (PanicErrorM.crateNotPanicRuntime ∈
          (injectResolve name strategy (some (cnum, data))).errors ↔
        data.isPanicRuntime = false) ∧
      (PanicErrorM.noPanicStrategy ∈
          (injectResolve name strategy (some (cnum, data))).errors ↔
        data.requiredPanicStrategy ≠ some strategy) := by
  refine ⟨rfl, ?_, ?_⟩ <;>
    by_cases hp : data.isPanicRuntime <;>
      by_cases hr : data.requiredPanicStrategy = some strategy <;>
        simp [injectResolve, hp, hr]

/-- Claim C6: panic-runtime injection is a no-op exactly when every output
type is an rlib, or nothing needs a panic runtime, or the strategy is
`ImmediateAbort`; otherwise it resolves `panic_unwind`/`panic_abort` per the
strategy, records the crate number, and emits `CrateNotPanicRuntime` /
`NoPanicStrategy` exactly for the failed shape checks. -/
theorem c6_inject_panic_runtime (crateTypes : List CrateTypeM) (localNeeds : Bool)
    (metas : List (Option CrateMetadataM)) (strategy : PanicStrategyM)
    (resolveResult : Option (Nat × CrateMetadataM)) :
    (inject_panic_runtime crateTypes localNeeds metas strategy resolveResult =
        ⟨none, none, []⟩ ↔ c6NoopCond crateTypes localNeeds metas strategy) ∧
      (∀ cnum data, resolveResult = some (cnum, data) →
        ¬ c6NoopCond crateTypes localNeeds metas strategy →
        (inject_panic_runtime crateTypes localNeeds metas strategy
            resolveResult).injected = some cnum ∧
          (strategy = PanicStrategyM.unwind →
            (inject_panic_runtime crateTypes localNeeds metas strategy
              resolveResult).resolvedName = some "panic_unwind") ∧
          (strategy = PanicStrategyM.abort →
            (inject_panic_runtime crateTypes localNeeds metas strategy
              resolveResult).resolvedName = some "panic_abort") ∧
          (PanicErrorM.crateNotPanicRuntime ∈
              (inject_panic_runtime crateTypes localNeeds metas strategy
                resolveResult).errors ↔ data.isPanicRuntime = false) ∧
          (PanicErrorM.noPanicStrategy ∈
              (inject_panic_runtime crateTypes localNeeds metas strategy
                resolveResult).errors ↔
            data.requiredPanicStrategy ≠ some strategy)) := by
  by_cases h1 : crateTypes.all (fun ct => ct == CrateTypeM.rlib) = true
  · have hcond : c6NoopCond crateTypes localNeeds metas strategy := by
      left
      intro ct hct
      have := List.all_eq_true.mp h1 ct hct
      simpa using this
    constructor
    · have heq : inject_panic_runtime crateTypes localNeeds metas strategy resolveResult =
          ⟨none, none, []⟩ := by
        simp [inject_panic_runtime, h1]
      exact ⟨fun _ => hcond, fun _ => heq⟩
    · intro cnum data _ hnot
      exact absurd hcond hnot
  · have hrlib : ¬ (∀ ct ∈ crateTypes, ct = CrateTypeM.rlib) := by
      intro hall
      exact h1 (List.all_eq_true.mpr (fun ct hct => by simp [hall ct hct]))
    by_cases h2 : (localNeeds || (iterCrateData metas).any (fun p => p.2.needsPanicRuntime)) = true
    · have hneeds : ¬ (localNeeds = false ∧
          ∀ p ∈ iterCrateData metas, p.2.needsPanicRuntime = false) := by
        rintro ⟨hl, hall⟩
        rcases Bool.or_eq_true_iff.mp h2 with h | h
        · exact absurd h (by simp [hl])
        · obtain ⟨p, hp, hpp⟩ := List.any_eq_true.mp h
          exact absurd hpp (by simp [hall p hp])
      cases strategy with
      | immediateAbort =>
        have hcond : c6NoopCond crateTypes localNeeds metas PanicStrategyM.immediateAbort := by
          right; right; rfl
        constructor
        · have heq : inject_panic_runtime crateTypes localNeeds metas
              PanicStrategyM.immediateAbort resolveResult = ⟨none, none, []⟩ := by
            simp [inject_panic_runtime, h1, h2]
          exact ⟨fun _ => hcond, fun _ => heq⟩
        · intro cnum data _ hnot
          exact absurd hcond hnot
      | unwind =>
        have hnotcond : ¬ c6NoopCond crateTypes localNeeds metas PanicStrategyM.unwind := by
          rintro (h | h | h)
          · exact hrlib h
          · exact hneeds h
          · exact PanicStrategyM.noConfusion h
        have heq : inject_panic_runtime crateTypes localNeeds metas PanicStrategyM.unwind
            resolveResult =
            injectResolve "panic_unwind" PanicStrategyM.unwind resolveResult := by
          simp [inject_panic_runtime, h1, h2]
        constructor
        · rw [heq]
          constructor
          · intro hx
            have := injectResolve_resolvedName "panic_unwind" PanicStrategyM.unwind resolveResult
            rw [hx] at this
            exact absurd this (by simp)
          · intro hc
            exact absurd hc hnotcond
        · intro cnum data hres _
          subst hres
          rw [heq]
          obtain ⟨ha, hb, hc⟩ := injectResolve_spec "panic_unwind" PanicStrategyM.unwind cnum data
          exact ⟨ha, fun _ => injectResolve_resolvedName _ _ _,
            fun hcontra => PanicStrategyM.noConfusion hcontra, hb, hc⟩
      | abort =>
        have hnotcond : ¬ c6NoopCond crateTypes localNeeds metas PanicStrategyM.abort := by
          rintro (h | h | h)
          · exact hrlib h
          · exact hneeds h
          · exact PanicStrategyM.noConfusion h
        have heq : inject_panic_runtime crateTypes localNeeds metas PanicStrategyM.abort
            resolveResult =
            injectResolve "panic_abort" PanicStrategyM.abort resolveResult := by
          simp [inject_panic_runtime, h1, h2]
        constructor
        · rw [heq]
          constructor
          · intro hx
            have := injectResolve_resolvedName "panic_abort" PanicStrategyM.abort resolveResult
            rw [hx] at this
            exact absurd this (by simp)
          · intro hc
            exact absurd hc hnotcond
        · intro cnum data hres _
          subst hres
          rw [heq]
          obtain ⟨ha, hb, hc⟩ := injectResolve_spec "panic_abort" PanicStrategyM.abort cnum data
          exact ⟨ha, fun hcontra => PanicStrategyM.noConfusion hcontra,
            fun _ => injectResolve_resolvedName _ _ _, hb, hc⟩
    · have hneeds : localNeeds = false ∧
          ∀ p ∈ iterCrateData metas, p.2.needsPanicRuntime = false := by
        have h2b : (localNeeds ||
            (iterCrateData metas).any (fun p => p.2.needsPanicRuntime)) = false := by
          simpa using h2
        have h2' := Bool.or_eq_false_iff.mp h2b
        refine ⟨h2'.1, fun p hp => ?_⟩
        have := List.any_eq_false.mp h2'.2 p hp
        simpa using this
      have hcond : c6NoopCond crateTypes localNeeds metas strategy := by
        right; left; exact hneeds
      constructor
      · have h2b : (localNeeds ||
            (iterCrateData metas).any (fun p => p.2.needsPanicRuntime)) = false := by
          simpa using h2
        have heq : inject_panic_runtime crateTypes localNeeds metas strategy resolveResult =
            ⟨none, none, []⟩ := by
          cases strategy <;> simp [inject_panic_runtime, h1, h2b]
        exact ⟨fun _ => hcond, fun _ => heq⟩
      · intro cnum data _ hnot
        exact absurd hcond hnot

/-- Witness for `c6_inject_panic_runtime`: an executable output, a crate
needing a panic runtime, strategy `Abort`, and a successful resolution of a
well-formed abort runtime. -/
theorem c6_witness :
    (inject_panic_runtime [CrateTypeM.executable] true [] PanicStrategyM.abort
        (some (1, ⟨0, 0, {}, false, true, some PanicStrategyM.abort⟩))).injected = some 1 ∧
      (PanicStrategyM.abort = PanicStrategyM.unwind →
        (inject_panic_runtime [CrateTypeM.executable] true [] PanicStrategyM.abort
          (some (1, ⟨0, 0, {}, false, true, some PanicStrategyM.abort⟩))).resolvedName =
          some "panic_unwind") ∧
      (PanicStrategyM.abort = PanicStrategyM.abort →
        (inject_panic_runtime [CrateTypeM.executable] true [] PanicStrategyM.abort
          (some (1, ⟨0, 0, {}, false, true, some PanicStrategyM.abort⟩))).resolvedName =
          some "panic_abort") ∧
      (PanicErrorM.crateNotPanicRuntime ∈
          (inject_panic_runtime [CrateTypeM.executable] true [] PanicStrategyM.abort
            (some (1, ⟨0, 0, {}, false, true, some PanicStrategyM.abort⟩))).errors ↔
        (⟨0, 0, {}, false, true, some PanicStrategyM.abort⟩ : CrateMetadataM).isPanicRuntime =
          false) ∧
      (PanicErrorM.noPanicStrategy ∈
          (inject_panic_runtime [CrateTypeM.executable] true [] PanicStrategyM.abort
            (some (1, ⟨0, 0, {}, false, true, some PanicStrategyM.abort⟩))).errors ↔
        (⟨0, 0, {}, false, true, some PanicStrategyM.abort⟩ :
            CrateMetadataM).requiredPanicStrategy ≠ some PanicStrategyM.abort) :=
  (c6_inject_panic_runtime [CrateTypeM.executable] true [] PanicStrategyM.abort
      (some (1, ⟨0, 0, {}, false, true, some PanicStrategyM.abort⟩))).2
    1 ⟨0, 0, {}, false, true, some PanicStrategyM.abort⟩ rfl
    (by
      rintro (h | ⟨h, -⟩ | h)
      · exact absurd (h CrateTypeM.executable (by simp)) (by simp)
      · exact Bool.noConfusion h
      · exact PanicStrategyM.noConfusion h)

/-- Error classes of the dynamic-library loader: the one Windows class that
is retried (`libloading::Error::LoadLibraryExW`, creader.rs:1736) versus any
other error, abstracted by a code. -/
inductive DylibErrorClassM
  | loadLibraryExW
  | otherErr (code : Nat)
deriving DecidableEq, Repr

/-- Result of one `attempt_load_dylib` call (external file-system behavior,
supplied as an oracle indexed by the attempt number). -/
inductive AttemptResultM
  | ok (lib : Nat)
  | err (cls : DylibErrorClassM)
deriving DecidableEq, Repr

/-- How a `load_dylib` run ended. -/
inductive DlOutcomeM
  | success (lib : Nat)
  | failFast (cls : DylibErrorClassM)
  | exhausted
deriving DecidableEq, Repr

/-- Observable behavior of one `load_dylib` run: the outcome, how many times
`attempt_load_dylib` was invoked, and the sleeps (in milliseconds) performed
between attempts. -/
structure DlRunM where
  outcome : DlOutcomeM
  attempts : Nat
  sleepsMs : List Nat
deriving DecidableEq, Repr

/-- The `for attempt in 0..max_attempts` loop of `load_dylib`
(creader.rs:1721-1752): on `Ok` return the library; on the
`LoadLibraryExW` class sleep 100 ms and retry; on any other error return it
immediately; when the loop ends, report exhaustion (the
"retried max_attempts times" error, creader.rs:1756-1762). -/
def dlGo (tryLoad : Nat → AttemptResultM) :
    Nat → Nat → List Nat → DlRunM
  | 0, idx, acc => ⟨DlOutcomeM.exhausted, idx, acc.reverse⟩
  | remaining + 1, idx, acc =>
    match tryLoad idx with
    | AttemptResultM.ok lib => ⟨DlOutcomeM.success lib, idx + 1, acc.reverse⟩
    | AttemptResultM.err DylibErrorClassM.loadLibraryExW =>
      dlGo tryLoad remaining (idx + 1) (100 :: acc)
    | AttemptResultM.err (DylibErrorClassM.otherErr c) =>
      ⟨DlOutcomeM.failFast (DylibErrorClassM.otherErr c), idx + 1, acc.reverse⟩

/-- `load_dylib` (creader.rs:1716-1763). -/
def load_dylib (tryLoad : Nat → AttemptResultM) (maxAttempts : Nat) : DlRunM :=
  dlGo tryLoad maxAttempts 0 []

/-- `load_symbol_from_dylib` opens with `max_attempts = 5`
(creader.rs:3096). -/
def load_dylib5 (tryLoad : Nat → AttemptResultM) : DlRunM :=
  load_dylib tryLoad 5

lemma dlGo_attempts_le (tryLoad : Nat → AttemptResultM) :
    ∀ remaining idx acc, (dlGo tryLoad remaining idx acc).attempts ≤ idx + remaining := by
  intro remaining
  induction remaining with
  | zero => intro idx acc; exact Nat.le_refl _
  | succ r ih =>
    intro idx acc
    rw [dlGo]
    cases h : tryLoad idx with
    | ok lib =>
      show idx + 1 ≤ idx + (r + 1)
      omega
    | err cls =>
      cases cls with
      | loadLibraryExW =>
        show (dlGo tryLoad r (idx + 1) (100 :: acc)).attempts ≤ idx + (r + 1)
        have := ih (idx + 1) (100 :: acc)
        omega
      | otherErr c =>
        show idx + 1 ≤ idx + (r + 1)
        omega

lemma dlGo_attempts_ge (tryLoad : Nat → AttemptResultM) :
    ∀ remaining idx acc, idx ≤ (dlGo tryLoad remaining idx acc).attempts := by
  intro remaining
  induction remaining with
  | zero => intro idx acc; exact Nat.le_refl _
  | succ r ih =>
    intro idx acc
    rw [dlGo]
    cases h : tryLoad idx with
    | ok lib =>
      show idx ≤ idx + 1
      omega
    | err cls =>
      cases cls with
      | loadLibraryExW =>
        show idx ≤ (dlGo tryLoad r (idx + 1) (100 :: acc)).attempts
        have := ih (idx + 1) (100 :: acc)
        omega
      | otherErr c =>
        show idx ≤ idx + 1
        omega

lemma dlGo_retry_class (tryLoad : Nat → AttemptResultM) :
    ∀ remaining idx acc i, idx ≤ i → i + 1 < (dlGo tryLoad remaining idx acc).attempts →
      tryLoad i = AttemptResultM.err DylibErrorClassM.loadLibraryExW := by
  intro remaining
  induction remaining with
  | zero =>
    intro idx acc i hge hlt
    exact absurd hlt (by show ¬ i + 1 < idx; omega)
  | succ r ih =>
    intro idx acc i hge hlt
    rw [dlGo] at hlt
    cases h : tryLoad idx with
    | ok lib =>
      rw [h] at hlt
      have hlt' : i + 1 < idx + 1 := hlt
      omega
    | err cls =>
      cases cls with
      | loadLibraryExW =>
        rw [h] at hlt
        rcases Nat.eq_or_lt_of_le hge with heq | hgt
        · exact heq ▸ h
        · exact ih (idx + 1) (100 :: acc) i hgt hlt
      | otherErr c =>
        rw [h] at hlt
        have hlt' : i + 1 < idx + 1 := hlt
        omega

lemma dlGo_exhausted (tryLoad : Nat → AttemptResultM) :
    ∀ remaining idx acc, (dlGo tryLoad remaining idx acc).outcome = DlOutcomeM.exhausted →
      (dlGo tryLoad remaining idx acc).attempts = idx + remaining ∧
        ∀ i, idx ≤ i → i < idx + remaining →
          tryLoad i = AttemptResultM.err DylibErrorClassM.loadLibraryExW := by
  intro remaining
  induction remaining with
  | zero =>
    intro idx acc _
    exact ⟨rfl, fun i h1 h2 => absurd h2 (by omega)⟩
  | succ r ih =>
    intro idx acc hout
    rw [dlGo] at hout ⊢
    cases h : tryLoad idx with
    | ok lib =>
      rw [h] at hout
      exact absurd hout (fun hx => DlOutcomeM.noConfusion hx)
    | err cls =>
      cases cls with
      | loadLibraryExW =>
        rw [h] at hout
        obtain ⟨h1, h2⟩ := ih (idx + 1) (100 :: acc) hout
        constructor
        · show (dlGo tryLoad r (idx + 1) (100 :: acc)).attempts = idx + (r + 1)
          omega
        · intro i hge hlt
          rcases Nat.eq_or_lt_of_le hge with heq | hgt
          · exact heq ▸ h
          · exact h2 i hgt (by omega)
      | otherErr c =>
        rw [h] at hout
        exact absurd hout (fun hx => DlOutcomeM.noConfusion hx)

lemma dlGo_sleeps_100 (tryLoad : Nat → AttemptResultM) :
    ∀ remaining idx acc, (∀ s ∈ acc, s = 100) →
      ∀ s ∈ (dlGo tryLoad remaining idx acc).sleepsMs, s = 100 := by
  intro remaining
  induction remaining with
  | zero =>
    intro idx acc hacc s hs
    exact hacc s (List.mem_reverse.mp hs)
  | succ r ih =>
    intro idx acc hacc s hs
    rw [dlGo] at hs
    cases h : tryLoad idx with
    | ok lib =>
      rw [h] at hs
      exact hacc s (List.mem_reverse.mp hs)
    | err cls =>
      cases cls with
      | loadLibraryExW =>
        rw [h] at hs
        refine ih (idx + 1) (100 :: acc) ?_ s hs
        intro t ht
        rcases List.mem_cons.mp ht with h' | h'
        · exact h'
        · exact hacc t h'
      | otherErr c =>
        rw [h] at hs
        exact hacc s (List.mem_reverse.mp hs)

lemma dlGo_sleeps_count (tryLoad : Nat → AttemptResultM) :
    ∀ remaining idx acc,
      ((dlGo tryLoad remaining idx acc).outcome = DlOutcomeM.exhausted →
        (dlGo tryLoad remaining idx acc).sleepsMs.length =
          acc.length + ((dlGo tryLoad remaining idx acc).attempts - idx)) ∧
      ((dlGo tryLoad remaining idx acc).outcome ≠ DlOutcomeM.exhausted →
        (dlGo tryLoad remaining idx acc).sleepsMs.length + 1 =
          acc.length + ((dlGo tryLoad remaining idx acc).attempts - idx)) := by
  intro remaining
  induction remaining with
  | zero =>
    intro idx acc
    refine ⟨fun _ => ?_, fun hne => absurd rfl hne⟩
    show acc.reverse.length = acc.length + (idx - idx)
    simp
  | succ r ih =>
    intro idx acc
    rw [dlGo]
    cases h : tryLoad idx with
    | ok lib =>
      constructor
      · intro hout
        exact absurd hout (fun hx => DlOutcomeM.noConfusion hx)
      · intro _
        show acc.reverse.length + 1 = acc.length + (idx + 1 - idx)
        simp
    | err cls =>
      cases cls with
      | loadLibraryExW =>
        have hge := dlGo_attempts_ge tryLoad r (idx + 1) (100 :: acc)
        obtain ⟨ih1, ih2⟩ := ih (idx + 1) (100 :: acc)
        simp only [List.length_cons] at ih1 ih2
        constructor
        · intro hout
          have hout' : (dlGo tryLoad r (idx + 1) (100 :: acc)).outcome =
              DlOutcomeM.exhausted := hout
          have := ih1 hout'
          show (dlGo tryLoad r (idx + 1) (100 :: acc)).sleepsMs.length =
            acc.length + ((dlGo tryLoad r (idx + 1) (100 :: acc)).attempts - idx)
          omega
        · intro hout
          have hout' : (dlGo tryLoad r (idx + 1) (100 :: acc)).outcome ≠
              DlOutcomeM.exhausted := hout
          have := ih2 hout'
          show (dlGo tryLoad r (idx + 1) (100 :: acc)).sleepsMs.length + 1 =
            acc.length + ((dlGo tryLoad r (idx + 1) (100 :: acc)).attempts - idx)
          omega
      | otherErr c =>
        constructor
        · intro hout
          exact absurd hout (fun hx => DlOutcomeM.noConfusion hx)
        · intro _
          show acc.reverse.length + 1 = acc.length + (idx + 1 - idx)
          simp

/-- Claim C7: with the `max_attempts = 5` passed by `load_symbol_from_dylib`,
`load_dylib` opens the library at most 5 times, every sleep between attempts
is 100 ms (one per retried attempt), every attempt before the last errored
with the `LoadLibraryExW` class, exhaustion means all 5 attempts hit that
class, and any other error class is returned immediately at the attempt where
it occurs — in particular on the first attempt with no retry. -/
theorem c7_load_dylib_retry (tryLoad : Nat → AttemptResultM) :
    (load_dylib5 tryLoad).attempts ≤ 5 ∧
      (∀ s ∈ (load_dylib5 tryLoad).sleepsMs, s = 100) ∧
      (∀ i, i + 1 < (load_dylib5 tryLoad).attempts →
        tryLoad i = AttemptResultM.err DylibErrorClassM.loadLibraryExW) ∧
      ((load_dylib5 tryLoad).outcome = DlOutcomeM.exhausted →
        (load_dylib5 tryLoad).attempts = 5 ∧
          ∀ i < 5, tryLoad i = AttemptResultM.err DylibErrorClassM.loadLibraryExW) ∧
      ((load_dylib5 tryLoad).outcome = DlOutcomeM.exhausted →
        (load_dylib5 tryLoad).sleepsMs.length = (load_dylib5 tryLoad).attempts) ∧
      ((load_dylib5 tryLoad).outcome ≠ DlOutcomeM.exhausted →
        (load_dylib5 tryLoad).sleepsMs.length + 1 = (load_dylib5 tryLoad).attempts) ∧
      (∀ c, tryLoad 0 = AttemptResultM.err (DylibErrorClassM.otherErr c) →
        load_dylib5 tryLoad =
          ⟨DlOutcomeM.failFast (DylibErrorClassM.otherErr c), 1, []⟩) := by
  have h1 := dlGo_attempts_le tryLoad 5 0 []
  have h3 := dlGo_retry_class tryLoad 5 0 []
  have h4 := dlGo_exhausted tryLoad 5 0 []
  have h5 := dlGo_sleeps_count tryLoad 5 0 []
  refine ⟨h1, dlGo_sleeps_100 tryLoad 5 0 [] (by simp), ?_, ?_, ?_, ?_, ?_⟩
  · intro i hi
    exact h3 i (Nat.zero_le i) hi
  · intro hout
    obtain ⟨ha, hb⟩ := h4 hout
    exact ⟨ha, fun i hi => hb i (Nat.zero_le i) (by omega)⟩
  · intro hout
    have hlen := h5.1 hout
    simpa using hlen
  · intro hout
    have hlen := h5.2 hout
    simpa using hlen
  · intro c hc
    show dlGo tryLoad 5 0 [] = ⟨DlOutcomeM.failFast (DylibErrorClassM.otherErr c), 1, []⟩
    rw [dlGo, hc]
    rfl

/-- Witness for `c7_load_dylib_retry`: an oracle failing with a non-retryable
class on the first attempt is returned immediately with one attempt and no
sleep. -/
theorem c7_witness :
    load_dylib5 (fun _ => AttemptResultM.err (DylibErrorClassM.otherErr 3)) =
      ⟨DlOutcomeM.failFast (DylibErrorClassM.otherErr 3), 1, []⟩ :=
  (c7_load_dylib_retry
    (fun _ => AttemptResultM.err (DylibErrorClassM.otherErr 3))).2.2.2.2.2.2 3 rfl

/-- Kind of a WebAssembly macro slot (`SlotType`, creader.rs:1788-1793). -/
inductive SlotKindM
  | derive
  | attr
  | bang
deriving DecidableEq, Repr

/-- Slot payload (`SlotData`, creader.rs:1781-1786): the owning module and the
exported function name are abstract identifiers. -/
structure SlotDataM where
  wasmModule : Nat
  functionName : Nat
  kind : SlotKindM
deriving DecidableEq, Repr

/-- The process-wide slot registry as initialized by `get_slots`
(creader.rs:1795-1799): 256 empty slots. -/
def initSlots : List (Option SlotDataM) :=
  List.replicate 256 none

/-- `allocate_slot` (creader.rs:1801-1810): store the payload in the first
free slot and return its index; with no free slot, panic with the stable
message. -/
def allocate_slot : List (Option SlotDataM) → SlotDataM →
    Except String (Nat × List (Option SlotDataM))
  | [], _ => Except.error "Ran out of proc macro slots (max 256)"
  | none :: rest, d => Except.ok (0, some d :: rest)
  | some x :: rest, d =>
    match allocate_slot rest d with
    | Except.ok (i, rest') => Except.ok (i + 1, some x :: rest')
    | Except.error e => Except.error e

/-- Trampoline clients; the constructor index records which of the
hand-written zero-capture functions (`slot_i_derive` / `slot_i_attr` /
`slot_i_bang`) backs the client, so distinct indices are distinct function
identities. -/
inductive ClientM
  | deriveClient (slot : Nat)
  | attrClient (slot : Nat)
  | bangClient (slot : Nat)
deriving DecidableEq, Repr

/-- `make_derive_client` (creader.rs:2781-2849): the source enumerates the 64
hand-written trampolines `slot_0_derive` … `slot_63_derive`, one per arm, and
panics with "Invalid slot" for any other index; embedded as the indexed
constructor guarded by the match's range. -/
def make_derive_client (slot : Nat) : Except String ClientM :=
  if slot < 64 then Except.ok (ClientM.deriveClient slot)
  else Except.error "Invalid slot"

/-- `make_attr_client` (creader.rs:2851-2919), same shape. -/
def make_attr_client (slot : Nat) : Except String ClientM :=
  if slot < 64 then Except.ok (ClientM.attrClient slot)
  else Except.error "Invalid slot"

/-- `make_bang_client` (creader.rs:2921-2989), same shape. -/
def make_bang_client (slot : Nat) : Except String ClientM :=
  if slot < 64 then Except.ok (ClientM.bangClient slot)
  else Except.error "Invalid slot"

/-- Dispatch on the metadata kind, as the registration loop does
(creader.rs:3014-3066). -/
def clientFor (kind : SlotKindM) (slot : Nat) : Except String ClientM :=
  match kind with
  | SlotKindM.derive => make_derive_client slot
  | SlotKindM.attr => make_attr_client slot
  | SlotKindM.bang => make_bang_client slot

/-- One registration in `create_wasm_proc_macros` (creader.rs:3009-3068):
allocate a slot for the metadata entry, then materialize the trampoline
client of the matching kind. -/
def register_wasm_slot (slots : List (Option SlotDataM)) (d : SlotDataM) :
    Except String (Nat × ClientM × List (Option SlotDataM)) :=
  match allocate_slot slots d with
  | Except.error e => Except.error e
  | Except.ok (i, slots') =>
    match clientFor d.kind i with
    | Except.error e => Except.error e
    | Except.ok c => Except.ok (i, c, slots')

/-- Claim C8's pairing property at a given registry state: every registration
that obtains a slot index is paired with a trampoline client for that
index. -/
def C8ClaimPairedAt (slots : List (Option SlotDataM)) (d : SlotDataM) : Prop :=
  ∀ i slots', allocate_slot slots d = Except.ok (i, slots') →
    ∃ c, clientFor d.kind i = Except.ok c

lemma allocate_slot_ok (d : SlotDataM) :
    ∀ slots i slots', allocate_slot slots d = Except.ok (i, slots') →
      i < slots.length ∧ slots.get? i = some none ∧ slots' = slots.set i (some d) := by
  intro slots
  induction slots with
  | nil =>
    intro i s' h
    exact absurd h (by simp [allocate_slot])
  | cons a rest ih =>
    intro i s' h
    cases a with
    | none =>
      simp only [allocate_slot, Except.ok.injEq, Prod.mk.injEq] at h
      obtain ⟨hi, hs⟩ := h
      subst hi
      subst hs
      exact ⟨Nat.succ_pos _, rfl, rfl⟩
    | some x =>
      rw [allocate_slot] at h
      cases hrec : allocate_slot rest d with
      | error e =>
        rw [hrec] at h
        exact absurd h (by simp)
      | ok p =>
        obtain ⟨j, rest'⟩ := p
        rw [hrec] at h
        simp only [Except.ok.injEq, Prod.mk.injEq] at h
        obtain ⟨hi, hs⟩ := h
        subst hi
        subst hs
        obtain ⟨h1, h2, h3⟩ := ih j rest' hrec
        refine ⟨by simpa using Nat.succ_lt_succ h1, by simpa using h2, ?_⟩
        rw [h3]
        rfl

lemma allocate_slot_error (d : SlotDataM) :
    ∀ slots e, allocate_slot slots d = Except.error e →
      e = "Ran out of proc macro slots (max 256)" ∧ ∀ s ∈ slots, s.isSome = true := by
  intro slots
  induction slots with
  | nil =>
    intro e h
    simp only [allocate_slot, Except.error.injEq] at h
    exact ⟨h.symm, by simp⟩
  | cons a rest ih =>
    intro e h
    cases a with
    | none =>
      exact absurd h (by simp [allocate_slot])
    | some x =>
      rw [allocate_slot] at h
      cases hrec : allocate_slot rest d with
      | error e' =>
        rw [hrec] at h
        simp only [Except.error.injEq] at h
        obtain ⟨hmsg, hall⟩ := ih e' hrec
        subst h
        refine ⟨hmsg, fun s hs => ?_⟩
        rcases List.mem_cons.mp hs with h' | h'
        · simp [h']
        · exact hall s h'
      | ok p =>
        rw [hrec] at h
        exact absurd h (by simp)

lemma allocate_slot_full (d : SlotDataM) :
    ∀ slots, (∀ s ∈ slots, s.isSome = true) →
      ∃ e, allocate_slot slots d = Except.error e := by
  intro slots
  induction slots with
  | nil =>
    intro _
    exact ⟨_, rfl⟩
  | cons a rest ih =>
    intro hall
    cases a with
    | none =>
      exact absurd (hall none (by simp)) (by simp)
    | some x =>
      obtain ⟨e, he⟩ := ih (fun s hs => hall s (List.mem_cons_of_mem _ hs))
      refine ⟨e, ?_⟩
      rw [allocate_slot, he]

/-- Claim C8 (amended): the registry has exactly 256 slots; allocation fills
the first free slot, and fails with the stable exhaustion message exactly
when every slot is occupied; a registration obtaining a slot index below 64
is paired with a distinct trampoline client of the matching kind; but any
index of 64 or above panics with "Invalid slot" even though free slots
remain. -/
theorem c8_slot_registry_amended :
    initSlots.length = 256 ∧
      (∀ slots d i slots', allocate_slot slots d = Except.ok (i, slots') →
        i < slots.length ∧ slots.get? i = some none ∧ slots' = slots.set i (some d)) ∧
      (∀ slots d e, allocate_slot slots d = Except.error e →
        e = "Ran out of proc macro slots (max 256)" ∧ ∀ s ∈ slots, s.isSome = true) ∧
      (∀ slots d, (∀ s ∈ slots, s.isSome = true) →
        ∃ e, allocate_slot slots d = Except.error e) ∧
      (∀ k i, i < 64 →
        ∃ c, clientFor k i = Except.ok c ∧
          (k = SlotKindM.derive → c = ClientM.deriveClient i) ∧
          (k = SlotKindM.attr → c = ClientM.attrClient i) ∧
          (k = SlotKindM.bang → c = ClientM.bangClient i)) ∧
      (∀ k i j ci cj, clientFor k i = Except.ok ci → clientFor k j = Except.ok cj →
        ci = cj → i = j) ∧
      (∀ k i, 64 ≤ i → clientFor k i = Except.error "Invalid slot") := by
  refine ⟨rfl, fun slots d => allocate_slot_ok d slots,
    fun slots d => allocate_slot_error d slots,
    fun slots d => allocate_slot_full d slots, ?_, ?_, ?_⟩
  · intro k i hi
    cases k with
    | derive =>
      exact ⟨ClientM.deriveClient i,
        by simp [clientFor, make_derive_client, hi], fun _ => rfl,
        fun h => SlotKindM.noConfusion h, fun h => SlotKindM.noConfusion h⟩
    | attr =>
      exact ⟨ClientM.attrClient i,
        by simp [clientFor, make_attr_client, hi], fun h => SlotKindM.noConfusion h,
        fun _ => rfl, fun h => SlotKindM.noConfusion h⟩
    | bang =>
      exact ⟨ClientM.bangClient i,
        by simp [clientFor, make_bang_client, hi], fun h => SlotKindM.noConfusion h,
        fun h => SlotKindM.noConfusion h, fun _ => rfl⟩
  · intro k i j ci cj hi hj hc
    cases k with
    | derive =>
      simp only [clientFor, make_derive_client] at hi hj
      split at hi
      · split at hj
        · injection hi with h1
          injection hj with h2
          have h3 : ClientM.deriveClient i = ClientM.deriveClient j := by
            rw [h1, hc, ← h2]
          exact ClientM.deriveClient.inj h3
        · exact Except.noConfusion hj
      · exact Except.noConfusion hi
    | attr =>
      simp only [clientFor, make_attr_client] at hi hj
      split at hi
      · split at hj
        · injection hi with h1
          injection hj with h2
          have h3 : ClientM.attrClient i = ClientM.attrClient j := by
            rw [h1, hc, ← h2]
          exact ClientM.attrClient.inj h3
        · exact Except.noConfusion hj
      · exact Except.noConfusion hi
    | bang =>
      simp only [clientFor, make_bang_client] at hi hj
      split at hi
      · split at hj
        · injection hi with h1
          injection hj with h2
          have h3 : ClientM.bangClient i = ClientM.bangClient j := by
            rw [h1, hc, ← h2]
          exact ClientM.bangClient.inj h3
        · exact Except.noConfusion hj
      · exact Except.noConfusion hi
  · intro k i hi
    have : ¬ i < 64 := by omega
    cases k <;>
      simp [clientFor, make_derive_client, make_attr_client, make_bang_client, this]

/-- Witness for `c8_slot_registry_amended`: slot 5 of a derive registration
receives the fifth derive trampoline. -/
theorem c8_witness :
    ∃ c, clientFor SlotKindM.derive 5 = Except.ok c ∧
      (SlotKindM.derive = SlotKindM.derive → c = ClientM.deriveClient 5) ∧
      (SlotKindM.derive = SlotKindM.attr → c = ClientM.attrClient 5) ∧
      (SlotKindM.derive = SlotKindM.bang → c = ClientM.bangClient 5) :=
  c8_slot_registry_amended.2.2.2.2.1 SlotKindM.derive 5 (by omega)

/-- Counterexample to claim C8 as stated: with slots 0–63 occupied, the 65th
registration still obtains a free slot (index 64, well within the registry's
256), but no trampoline client exists for it — `make_derive_client` panics
with "Invalid slot" instead of pairing the registration with a client. -/
theorem c8_counterexample :
    ¬ C8ClaimPairedAt
        (List.replicate 64 (some (⟨0, 0, SlotKindM.derive⟩ : SlotDataM)) ++
          List.replicate 192 none)
        ⟨0, 0, SlotKindM.derive⟩ := by
  intro h
  obtain ⟨c, hc⟩ := h 64
    (List.replicate 64 (some (⟨0, 0, SlotKindM.derive⟩ : SlotDataM)) ++
      (some (⟨0, 0, SlotKindM.derive⟩ : SlotDataM) :: List.replicate 191 none))
    (by rfl)
  simp [clientFor, make_derive_client] at hc

/-- Proc-macro metadata records (`ProcMacroMetadata`,
rustc_watt_runtime/src/metadata.rs:9-30). Strings are lists of Unicode
codepoints. -/
inductive ProcMacroMetadataM
  | customDerive (traitName : List Nat) (attributes : List (List Nat))
      (functionName : List Nat)
  | attrRec (name : List Nat) (functionName : List Nat)
  | bangRec (name : List Nat) (functionName : List Nat)
deriving DecidableEq, Repr

/-- `std::str::from_utf8` validation and decoding (external standard-library
collaborator): strict UTF-8 — continuation bytes in 0x80-0xBF, no overlong
encodings (first byte ≥ 0xC2 for 2-byte forms, 0xE0 requires 0xA0-0xBF,
0xF0 requires 0x90-0xBF), no surrogates (0xED caps at 0x9F), and nothing
above U+10FFFF (0xF4 caps at 0x8F, first bytes ≥ 0xF5 invalid). Returns the
codepoint sequence, or `none` for invalid input. -/
def utf8Decode : List Nat → Option (List Nat)
  | [] => some []
  | b :: rest =>
    if b < 0x80 then
      match utf8Decode rest with
      | some cs => some (b :: cs)
      | none => none
    else if b < 0xC2 then none
    else if b < 0xE0 then
      match rest with
      | c1 :: rest1 =>
        if 0x80 ≤ c1 && c1 < 0xC0 then
          match utf8Decode rest1 with
          | some cs => some (((b - 0xC0) * 0x40 + (c1 - 0x80)) :: cs)
          | none => none
        else none
      | [] => none
    else if b < 0xF0 then
      match rest with
      | c1 :: c2 :: rest2 =>
        let lo1 := if b == 0xE0 then 0xA0 else 0x80
        let hi1 := if b == 0xED then 0xA0 else 0xC0
        if lo1 ≤ c1 && c1 < hi1 && 0x80 ≤ c2 && c2 < 0xC0 then
          match utf8Decode rest2 with
          | some cs =>
            some (((b - 0xE0) * 0x1000 + (c1 - 0x80) * 0x40 + (c2 - 0x80)) :: cs)
          | none => none
        else none
      | _ => none
    else if b < 0xF5 then
      match rest with
      | c1 :: c2 :: c3 :: rest3 =>
        let lo1 := if b == 0xF0 then 0x90 else 0x80
        let hi1 := if b == 0xF4 then 0x90 else 0xC0
        if lo1 ≤ c1 && c1 < hi1 && 0x80 ≤ c2 && c2 < 0xC0 && 0x80 ≤ c3 && c3 < 0xC0 then
          match utf8Decode rest3 with
          | some cs =>
            some (((b - 0xF0) * 0x40000 + (c1 - 0x80) * 0x1000 + (c2 - 0x80) * 0x40 +
              (c3 - 0x80)) :: cs)
          | none => none
        else none
      | _ => none
    else none

/-- `char::is_whitespace` (the Unicode White_Space property), as `str::trim`
uses it. -/
def isRustWhitespace (c : Nat) : Bool :=
  c == 0x09 || c == 0x0A || c == 0x0B || c == 0x0C || c == 0x0D || c == 0x20 ||
    c == 0x85 || c == 0xA0 || c == 0x1680 || (0x2000 ≤ c && c ≤ 0x200A) ||
    c == 0x2028 || c == 0x2029 || c == 0x202F || c == 0x205F || c == 0x3000

/-- `str::trim`: drop leading and trailing whitespace. -/
def trimChars (l : List Nat) : List Nat :=
  ((l.dropWhile isRustWhitespace).reverse.dropWhile isRustWhitespace).reverse

/-- `str::split(sep)`: split at every occurrence of `sep`; `n` separators
yield `n + 1` chunks (empty input yields one empty chunk). -/
def splitOnChar (sep : Nat) : List Nat → List (List Nat)
  | [] => [[]]
  | c :: rest =>
    match splitOnChar sep rest with
    | [] => if c = sep then [[], []] else [[c]]
    | h :: t => if c = sep then [] :: h :: t else (c :: h) :: t

/-- `str::lines` drops one trailing carriage return from each line. -/
def stripCR (l : List Nat) : List Nat :=
  match l.reverse with
  | 13 :: _ => l.dropLast
  | _ => l

/-- `str::lines`: split on newline, treating the newline as a terminator (no
empty final line for text ending in a newline; empty text has no lines), and
strip a trailing carriage return from each line. -/
def linesOf (text : List Nat) : List (List Nat) :=
  match text with
  | [] => []
  | _ =>
    let chunks := splitOnChar 10 text
    let chunks := if chunks.getLast? = some [] then chunks.dropLast else chunks
    chunks.map stripCR

/-- The codepoints of "derive". -/
def tagDerive : List Nat := [100, 101, 114, 105, 118, 101]

/-- The codepoints of "attr". -/
def tagAttr : List Nat := [97, 116, 116, 114]

/-- The codepoints of "bang". -/
def tagBang : List Nat := [98, 97, 110, 103]

/-- The helper-attribute list of a 4-field derive record
(metadata.rs:194-198): split on commas, trim, drop empties. -/
def parseAttrList (attrs : List Nat) : List (List Nat) :=
  ((splitOnChar 44 attrs).map trimChars).filter (fun s => !s.isEmpty)

/-- The line loop of `parse_metadata` (metadata.rs:175-224): per line, trim,
skip empties, split on colons, and match the record shapes in source order;
anything else is skipped silently. -/
def parse_metadata_text (text : List Nat) : List ProcMacroMetadataM :=
  (linesOf text).foldl
    (fun acc line =>
      let l := trimChars line
      if l.isEmpty then acc
      else
        match splitOnChar 58 l with
        | [t, a, b] =>
          if t = tagDerive then acc ++ [ProcMacroMetadataM.customDerive a [] b]
          else if t = tagAttr then acc ++ [ProcMacroMetadataM.attrRec a b]
          else if t = tagBang then acc ++ [ProcMacroMetadataM.bangRec a b]
          else acc
        | [t, a, b, attrs] =>
          if t = tagDerive then
            acc ++ [ProcMacroMetadataM.customDerive a (parseAttrList attrs) b]
          else acc
        | _ => acc)
    []

/-- `parse_metadata` (metadata.rs:169-225): UTF-8 decode (empty result on
invalid bytes), then the line loop. -/
def parse_metadata (bytes : List Nat) : List ProcMacroMetadataM :=
  match utf8Decode bytes with
  | some text => parse_metadata_text text
  | none => []

/-- The loop of `read_leb128_u32` (metadata.rs:146-165), carrying the
accumulated result, the shift, and the position; `u32` arithmetic is `Nat`
with an explicit reduction modulo 2^32 (`<<` on `u32` discards shifted-out
bits). -/
def leb128Go : List Nat → Nat → Nat → Nat → Option (Nat × Nat)
  | [], _, _, _ => none
  | byte :: rest, result, shift, pos =>
    let result := (result ||| ((byte &&& 0x7F) <<< shift)) % 4294967296
    if byte &&& 0x80 == 0 then some (result, pos + 1)
    else if shift + 7 > 28 then none
    else leb128Go rest result (shift + 7) (pos + 1)

/-- `read_leb128_u32` (metadata.rs:141-166). -/
def read_leb128_u32 (bytes : List Nat) : Option (Nat × Nat) :=
  leb128Go bytes 0 0 0

/-- The section-scanning loop of `find_custom_section` (metadata.rs:92-135),
with the position as an explicit argument and fuel bounding the iteration
count (the position strictly increases each iteration, so
`bytes.length + 1` fuel is never exhausted; the loop's redundant
`pos + 1 > len` check under `pos < len` is dropped). -/
def fcsGo (bytes : List Nat) (target : List Nat) : Nat → Nat → Option (List Nat)
  | 0, _ => none
  | fuel + 1, pos =>
    if pos < bytes.length then
      let sectionId := bytes.getD pos 0
      let pos1 := pos + 1
      match read_leb128_u32 (bytes.drop pos1) with
      | none => none
      | some (size, sizeLen) =>
        let pos2 := pos1 + sizeLen
        if sectionId == 0 then
          let sectionEnd := pos2 + size
          if sectionEnd > bytes.length then none
          else
            match read_leb128_u32 (bytes.drop pos2) with
            | none => none
            | some (nameLen, nameLenSize) =>
              let pos3 := pos2 + nameLenSize
              if pos3 + nameLen > sectionEnd then fcsGo bytes target fuel sectionEnd
              else
                let nm := (bytes.drop pos3).take nameLen
                let pos4 := pos3 + nameLen
                if nm = target then some ((bytes.drop pos4).take (sectionEnd - pos4))
                else fcsGo bytes target fuel sectionEnd
        else fcsGo bytes target fuel (pos2 + size)
    else none

/-- The bytes of the WASM magic `b"\0asm"`. -/
def wasmMagic : List Nat := [0, 97, 115, 109]

/-- `find_custom_section` (metadata.rs:73-138): check magic and length, then
scan sections from position 8. -/
def find_custom_section (bytes : List Nat) (target : List Nat) : Option (List Nat) :=
  if bytes.length < 8 then none
  else if ¬ (bytes.take 4 = wasmMagic) then none
  else fcsGo bytes target (bytes.length + 1) 8

/-- The codepoints of the section name ".rustc_proc_macro_decls". -/
def declsSectionName : List Nat :=
  [46, 114, 117, 115, 116, 99, 95, 112, 114, 111, 99, 95, 109, 97, 99, 114, 111,
    95, 100, 101, 99, 108, 115]

/-- `extract_proc_macro_metadata` (metadata.rs:61-70). -/
def extract_proc_macro_metadata (bytes : List Nat) : List ProcMacroMetadataM :=
  match find_custom_section bytes declsSectionName with
  | some content => parse_metadata content
  | none => []

/-- Claim C9's grammar, per trimmed line: `derive:T:f` (empty helper list),
`derive:T:f:attrs`, `attr:n:f`, `bang:n:f`; any other kind tag or field
count yields no record. -/
def c9SpecLine (line : List Nat) : Option ProcMacroMetadataM :=
  let parts := splitOnChar 58 line
  if parts.length = 3 ∧ parts.getD 0 [] = tagDerive then
    some (ProcMacroMetadataM.customDerive (parts.getD 1 []) [] (parts.getD 2 []))
  else if parts.length = 3 ∧ parts.getD 0 [] = tagAttr then
    some (ProcMacroMetadataM.attrRec (parts.getD 1 []) (parts.getD 2 []))
  else if parts.length = 3 ∧ parts.getD 0 [] = tagBang then
    some (ProcMacroMetadataM.bangRec (parts.getD 1 []) (parts.getD 2 []))
  else if parts.length = 4 ∧ parts.getD 0 [] = tagDerive then
    some (ProcMacroMetadataM.customDerive (parts.getD 1 [])
      (parseAttrList (parts.getD 3 [])) (parts.getD 2 []))
  else none

lemma c9_line_step (acc : List ProcMacroMetadataM) (line : List Nat) :
    (let l := trimChars line
     if l.isEmpty then acc
     else
       match splitOnChar 58 l with
       | [t, a, b] =>
         if t = tagDerive then acc ++ [ProcMacroMetadataM.customDerive a [] b]
         else if t = tagAttr then acc ++ [ProcMacroMetadataM.attrRec a b]
         else if t = tagBang then acc ++ [ProcMacroMetadataM.bangRec a b]
         else acc
       | [t, a, b, attrs] =>
         if t = tagDerive then
           acc ++ [ProcMacroMetadataM.customDerive a (parseAttrList attrs) b]
         else acc
       | _ => acc) =
      acc ++ (c9SpecLine (trimChars line)).toList := by
  by_cases he : (trimChars line).isEmpty
  · have hleq : trimChars line = [] := by simpa using he
    simp [he, c9SpecLine, hleq, splitOnChar]
  · simp only [he, if_false, Bool.false_eq_true]
    rcases hp : splitOnChar 58 (trimChars line) with _ | ⟨t, _ | ⟨a, _ | ⟨b, _ | ⟨attrs, rest⟩⟩⟩⟩
    · simp [c9SpecLine, hp]
    · simp [c9SpecLine, hp]
    · simp [c9SpecLine, hp]
    · by_cases h1 : t = tagDerive
      · simp [c9SpecLine, hp, h1]
      · by_cases h2 : t = tagAttr
        · simp [c9SpecLine, hp, h1, h2, show ¬ tagAttr = tagDerive from by decide]
        · by_cases h3 : t = tagBang
          · simp [c9SpecLine, hp, h1, h2, h3, show ¬ tagBang = tagDerive from by decide,
              show ¬ tagBang = tagAttr from by decide]
          · simp [c9SpecLine, hp, h1, h2, h3]
    · cases rest with
      | nil =>
        by_cases h1 : t = tagDerive
        · simp [c9SpecLine, hp, h1]
        · simp [c9SpecLine, hp, h1]
      | cons x xs =>
        simp [c9SpecLine, hp]

/-- Claim C9: `parse_metadata` produces, per line of the UTF-8-decoded
section text, exactly the record the grammar prescribes — `derive:T:f` a
derive with empty helper list, `derive:T:f:attrs` a derive with the parsed
helpers, `attr:n:f` an attribute, `bang:n:f` a bang — and silently skips
every other line; invalid UTF-8 yields no records. -/
theorem c9_parse_metadata_grammar (bytes : List Nat) :
    parse_metadata bytes =
      match utf8Decode bytes with
      | none => []
      | some text => (linesOf text).filterMap (fun l => c9SpecLine (trimChars l)) := by
  unfold parse_metadata
  cases hdec : utf8Decode bytes with
  | none => rfl
  | some text =>
    show parse_metadata_text text = (linesOf text).filterMap (fun l => c9SpecLine (trimChars l))
    unfold parse_metadata_text
    have key : ∀ (ls : List (List Nat)) (acc : List ProcMacroMetadataM),
        ls.foldl
          (fun acc line =>
            let l := trimChars line
            if l.isEmpty then acc
            else
              match splitOnChar 58 l with
              | [t, a, b] =>
                if t = tagDerive then acc ++ [ProcMacroMetadataM.customDerive a [] b]
                else if t = tagAttr then acc ++ [ProcMacroMetadataM.attrRec a b]
                else if t = tagBang then acc ++ [ProcMacroMetadataM.bangRec a b]
                else acc
              | [t, a, b, attrs] =>
                if t = tagDerive then
                  acc ++ [ProcMacroMetadataM.customDerive a (parseAttrList attrs) b]
                else acc
              | _ => acc)
          acc =
        acc ++ ls.filterMap (fun l => c9SpecLine (trimChars l)) := by
      intro ls
      induction ls with
      | nil => intro acc; simp
      | cons x tl ih =>
        intro acc
        rw [List.foldl_cons, List.filterMap_cons]
        rw [c9_line_step acc x, ih]
        cases hx : c9SpecLine (trimChars x) with
        | none => simp
        | some r => simp
    rw [key (linesOf text) []]
    simp

lemma leb128Go_allCont :
    ∀ (bs : List Nat) (r s p : Nat), (∀ x ∈ bs, x &&& 0x80 ≠ 0) →
      leb128Go bs r s p = none := by
  intro bs
  induction bs with
  | nil => intro r s p _; rfl
  | cons b rest ih =>
    intro r s p hall
    have hb : (b &&& 0x80 == 0) = false :=
      beq_eq_false_iff_ne.mpr (hall b (by simp))
    rw [leb128Go]
    simp only [hb, Bool.false_eq_true, if_false]
    split
    · rfl
    · exact ih _ _ _ (fun x hx => hall x (List.mem_cons_of_mem _ hx))

lemma leb128_overlong :
    ∀ (bs : List Nat), 5 ≤ bs.length → (∀ x ∈ bs.take 5, x &&& 0x80 ≠ 0) →
      read_leb128_u32 bs = none := by
  intro bs hlen hall
  rcases bs with _ | ⟨b0, bs⟩
  · exact absurd hlen (by simp)
  rcases bs with _ | ⟨b1, bs⟩
  · exact absurd hlen (by simp)
  rcases bs with _ | ⟨b2, bs⟩
  · exact absurd hlen (by simp)
  rcases bs with _ | ⟨b3, bs⟩
  · exact absurd hlen (by simp)
  rcases bs with _ | ⟨b4, rest⟩
  · exact absurd hlen (by simp)
  have h0 : (b0 &&& 0x80 == 0) = false :=
    beq_eq_false_iff_ne.mpr (hall b0 (by simp [List.take]))
  have h1 : (b1 &&& 0x80 == 0) = false :=
    beq_eq_false_iff_ne.mpr (hall b1 (by simp [List.take]))
  have h2 : (b2 &&& 0x80 == 0) = false :=
    beq_eq_false_iff_ne.mpr (hall b2 (by simp [List.take]))
  have h3 : (b3 &&& 0x80 == 0) = false :=
    beq_eq_false_iff_ne.mpr (hall b3 (by simp [List.take]))
  have h4 : (b4 &&& 0x80 == 0) = false :=
    beq_eq_false_iff_ne.mpr (hall b4 (by simp [List.take]))
  simp [read_leb128_u32, leb128Go, h0, h1, h2, h3, h4]

/-- Claim C10: `extract_proc_macro_metadata` handles every malformed input
without failure — inputs shorter than 8 bytes, inputs lacking the `\0asm`
magic, truncated LEB128 values (every byte a continuation byte) and
over-long ones (5 continuation bytes push the shift past 28), a custom
section whose declared size runs past the end of the input, a non-custom
section doing the same, and a correctly-framed section with non-UTF-8
contents all yield the empty record list. -/
theorem c10_extract_bad_inputs :
    (∀ bytes : List Nat, bytes.length < 8 → extract_proc_macro_metadata bytes = []) ∧
      (∀ bytes : List Nat, bytes.take 4 ≠ wasmMagic →
        extract_proc_macro_metadata bytes = []) ∧
      (∀ bs : List Nat, (∀ x ∈ bs, x &&& 0x80 ≠ 0) → read_leb128_u32 bs = none) ∧
      (∀ bs : List Nat, 5 ≤ bs.length → (∀ x ∈ bs.take 5, x &&& 0x80 ≠ 0) →
        read_leb128_u32 bs = none) ∧
      extract_proc_macro_metadata
        ([0, 97, 115, 109, 1, 0, 0, 0] ++ [0, 0x80, 0x80, 0x80, 0x80, 0x80]) = [] ∧
      extract_proc_macro_metadata ([0, 97, 115, 109, 1, 0, 0, 0] ++ [0, 5]) = [] ∧
      extract_proc_macro_metadata ([0, 97, 115, 109, 1, 0, 0, 0] ++ [1, 5]) = [] ∧
      extract_proc_macro_metadata
        (([0, 97, 115, 109, 1, 0, 0, 0] ++ [0, 25, 23]) ++ declsSectionName ++ [255]) =
        [] := by
  refine ⟨?_, ?_, fun bs h => leb128Go_allCont bs 0 0 0 h, leb128_overlong,
    by rfl, by rfl, by rfl, by rfl⟩
  · intro bytes h
    simp [extract_proc_macro_metadata, find_custom_section, h]
  · intro bytes h
    by_cases hlen : bytes.length < 8
    · simp [extract_proc_macro_metadata, find_custom_section, hlen]
    · simp [extract_proc_macro_metadata, find_custom_section, hlen, h]

/-- Witness for `c10_extract_bad_inputs` at concrete malformed inputs. -/
theorem c10_witness :
    extract_proc_macro_metadata [0] = [] ∧
      extract_proc_macro_metadata [1, 2, 3, 4, 5, 6, 7, 8] = [] ∧
      read_leb128_u32 [0x80, 0x80] = none ∧
      read_leb128_u32 [0x80, 0x80, 0x80, 0x80, 0x80, 0] = none :=
  ⟨c10_extract_bad_inputs.1 [0] (by decide),
    c10_extract_bad_inputs.2.1 [1, 2, 3, 4, 5, 6, 7, 8] (by decide),
    c10_extract_bad_inputs.2.2.1 [0x80, 0x80] (by decide),
    c10_extract_bad_inputs.2.2.2.1 [0x80, 0x80, 0x80, 0x80, 0x80, 0] (by decide) (by decide)⟩

/-- A non-self dependency edge in the loaded crate graph: `deps a` is
`data.dependencies()` for crate `a` (decoded from the blob's `CrateNumMap`,
outside the embedded sources; kept abstract as a function). -/
def depEdge (deps : Nat → List Nat) (a b : Nat) : Prop :=
  b ∈ deps a ∧ b ≠ a

/-- Reachability along non-self dependency edges (reflexive-transitive). -/
def Reaches (deps : Nat → List Nat) : Nat → Nat → Prop :=
  Relation.ReflTransGen (depEdge deps)

/-- Every crate in the sequence appears only after all of its non-self
dependencies. -/
def postOrdered (deps : Nat → List Nat) (l : List Nat) : Prop :=
  ∀ pre x post, l = pre ++ x :: post → ∀ d ∈ deps x, d ≠ x → d ∈ pre

/-- The sequence is closed under non-self dependencies. -/
def depClosed (deps : Nat → List Nat) (l : List Nat) : Prop :=
  ∀ x ∈ l, ∀ d ∈ deps x, d ≠ x → d ∈ l

/-- `CStore::push_dependencies_in_postorder` (creader.rs:288-299): skip an
already visited crate; otherwise recurse into every non-self dependency and
then insert the crate at the end (the `IndexSet` is the insertion-ordered
list `acc`; its `insert` is append-if-absent). The recursion is bounded by
`fuel`; under the claim's acyclicity hypothesis a rank function bounds the
recursion depth, so sufficient fuel is never exhausted. -/
def pushDeps (deps : Nat → List Nat) : Nat → List Nat → Nat → List Nat
  | 0, acc, _ => acc
  | fuel + 1, acc, c =>
    if c ∈ acc then acc
    else
      let acc1 := (deps c).foldl (fun a d => if d ≠ c then pushDeps deps fuel a d else a) acc
      if c ∈ acc1 then acc1 else acc1 ++ [c]

/-- `CStore::crate_dependencies_in_postorder` (creader.rs:301-311): for the
local crate (`CrateNum` 0) walk from every loaded crate, otherwise from the
given crate. -/
def crate_dependencies_in_postorder (deps : Nat → List Nat) (loaded : List Nat)
    (fuel : Nat) (cnum : Nat) : List Nat :=
  if cnum = 0 then loaded.foldl (fun a c => pushDeps deps fuel a c) []
  else pushDeps deps fuel [] cnum

lemma reaches_rank_le (deps : Nat → List Nat) (rank : Nat → Nat) (c : Nat)
    (hreach : ∀ a, Reaches deps c a → ∀ b ∈ deps a, b ≠ a → rank b < rank a) :
    ∀ a b, Reaches deps c a → Reaches deps a b → rank b ≤ rank a := by
  intro a b hca hab
  induction hab with
  | refl => exact Nat.le_refl _
  | tail h1 h2 ih =>
    have hy := Relation.ReflTransGen.trans hca h1
    exact Nat.le_trans (Nat.le_of_lt (hreach _ hy _ h2.1 h2.2)) ih

lemma reaches_mem_of_closed (deps : Nat → List Nat) (l : List Nat)
    (hclosed : depClosed deps l) :
    ∀ r x, r ∈ l → Reaches deps r x → x ∈ l := by
  intro r x hr h
  induction h with
  | refl => exact hr
  | tail _ h2 ih => exact hclosed _ ih _ h2.1 h2.2

lemma append_singleton_cases {α : Type} {l pre post : List α} {c x : α}
    (h : l ++ [c] = pre ++ x :: post) :
    (post = [] ∧ pre = l ∧ x = c) ∨
      ∃ post', post = post' ++ [c] ∧ l = pre ++ x :: post' := by
  rcases List.eq_nil_or_concat post with rfl | ⟨post', a, rfl⟩
  · left
    have hlen : l.length = pre.length := by
      have := congrArg List.length h
      simp at this
      omega
    obtain ⟨h1, h2⟩ := List.append_inj h hlen
    have : c = x := by simpa using h2
    exact ⟨rfl, h1.symm, this.symm⟩
  · right
    have h' : l ++ [c] = (pre ++ x :: post') ++ [a] := by
      rw [h]
      simp
    have hlen : l.length = (pre ++ x :: post').length := by
      have := congrArg List.length h'
      simp at this ⊢
      omega
    obtain ⟨h1, h2⟩ := List.append_inj h' hlen
    have hca : c = a := by simpa using h2
    exact ⟨post', by rw [hca, List.concat_eq_append], h1⟩

lemma pushDeps_spec (deps : Nat → List Nat) (rank : Nat → Nat) :
    ∀ (fuel : Nat) (c : Nat) (acc : List Nat),
      rank c < fuel →
      (∀ a, Reaches deps c a → ∀ b ∈ deps a, b ≠ a → rank b < rank a) →
      acc.Nodup → depClosed deps acc → postOrdered deps acc →
      ∃ ext, pushDeps deps fuel acc c = acc ++ ext ∧
        (acc ++ ext).Nodup ∧ depClosed deps (acc ++ ext) ∧
        postOrdered deps (acc ++ ext) ∧
        c ∈ acc ++ ext ∧ (∀ x ∈ ext, Reaches deps c x) := by
  intro fuel
  induction fuel with
  | zero =>
    intro c acc hrank
    exact absurd hrank (by omega)
  | succ fuel ih =>
    intro c acc hrankc hreach hnd hcl hord
    by_cases hcin : c ∈ acc
    · refine ⟨[], ?_, by simpa using hnd, by simpa using hcl, by simpa using hord,
        by simpa using hcin, by simp⟩
      rw [pushDeps, if_pos hcin]
      simp
    · have fold : ∀ (ds : List Nat) (acc0 : List Nat),
          (∀ d ∈ ds, d ∈ deps c) →
          acc0.Nodup → depClosed deps acc0 → postOrdered deps acc0 →
          ∃ ext,
            ds.foldl (fun a d => if d ≠ c then pushDeps deps fuel a d else a) acc0 =
              acc0 ++ ext ∧
            (acc0 ++ ext).Nodup ∧ depClosed deps (acc0 ++ ext) ∧
            postOrdered deps (acc0 ++ ext) ∧
            (∀ d ∈ ds, d = c ∨ d ∈ acc0 ++ ext) ∧
            (∀ x ∈ ext, ∃ d ∈ ds, d ≠ c ∧ Reaches deps d x) := by
        intro ds
        induction ds with
        | nil =>
          intro acc0 _ h1 h2 h3
          exact ⟨[], by simp, by simpa using h1, by simpa using h2, by simpa using h3,
            by simp, by simp⟩
        | cons d ds ihd =>
          intro acc0 hds h1 h2 h3
          rw [List.foldl_cons]
          by_cases hdc : d ≠ c
          · have hd_dep : d ∈ deps c := hds d (by simp)
            have hrank_d : rank d < fuel := by
              have := hreach c Relation.ReflTransGen.refl d hd_dep hdc
              omega
            have hreach_d : ∀ a, Reaches deps d a → ∀ b ∈ deps a, b ≠ a →
                rank b < rank a := by
              intro a ha b hb hne
              exact hreach a (Relation.ReflTransGen.head ⟨hd_dep, hdc⟩ ha) b hb hne
            obtain ⟨ext1, he1, hn1, hc1, ho1, hm1, hr1⟩ :=
              ih d acc0 hrank_d hreach_d h1 h2 h3
            rw [if_pos hdc, he1]
            obtain ⟨ext2, he2, hn2, hc2, ho2, hm2, hr2⟩ :=
              ihd (acc0 ++ ext1) (fun d' hd' => hds d' (List.mem_cons_of_mem _ hd'))
                hn1 hc1 ho1
            refine ⟨ext1 ++ ext2, ?_, ?_, ?_, ?_, ?_, ?_⟩
            · rw [he2, List.append_assoc]
            · rw [← List.append_assoc]
              exact hn2
            · rw [← List.append_assoc]
              exact hc2
            · rw [← List.append_assoc]
              exact ho2
            · intro d' hd'
              rcases List.mem_cons.mp hd' with rfl | hd'
              · right
                rw [← List.append_assoc]
                exact List.mem_append_left _ hm1
              · rcases hm2 d' hd' with h | h
                · exact Or.inl h
                · right
                  rw [← List.append_assoc]
                  exact h
            · intro x hx
              rcases List.mem_append.mp hx with hx | hx
              · exact ⟨d, by simp, hdc, hr1 x hx⟩
              · obtain ⟨d', hd', hd'c, hrx⟩ := hr2 x hx
                exact ⟨d', List.mem_cons_of_mem _ hd', hd'c, hrx⟩
          · rw [if_neg hdc]
            obtain ⟨ext2, he2, hn2, hc2, ho2, hm2, hr2⟩ :=
              ihd acc0 (fun d' hd' => hds d' (List.mem_cons_of_mem _ hd')) h1 h2 h3
            have hdeq : d = c := by
              by_contra hne
              exact hdc hne
            refine ⟨ext2, he2, hn2, hc2, ho2, ?_, ?_⟩
            · intro d' hd'
              rcases List.mem_cons.mp hd' with rfl | hd'
              · exact Or.inl hdeq
              · exact hm2 d' hd'
            · intro x hx
              obtain ⟨d', hd', hd'c, hrx⟩ := hr2 x hx
              exact ⟨d', List.mem_cons_of_mem _ hd', hd'c, hrx⟩
      obtain ⟨ext1, he1, hn1, hc1, ho1, hm1, hr1⟩ :=
        fold (deps c) acc (fun d hd => hd) hnd hcl hord
      have hcnot1 : c ∉ acc ++ ext1 := by
        intro hin
        rcases List.mem_append.mp hin with h | h
        · exact hcin h
        · obtain ⟨d, hdmem, hdc, hrdc⟩ := hr1 c h
          have hedge : Reaches deps c d :=
            Relation.ReflTransGen.single ⟨hdmem, hdc⟩
          have hle : rank c ≤ rank d :=
            reaches_rank_le deps rank c hreach d c hedge hrdc
          have hlt : rank d < rank c :=
            hreach c Relation.ReflTransGen.refl d hdmem hdc
          omega
      refine ⟨ext1 ++ [c], ?_, ?_, ?_, ?_, ?_, ?_⟩
      · rw [pushDeps, if_neg hcin]
        simp only []
        rw [he1, if_neg hcnot1, List.append_assoc]
      · rw [← List.append_assoc]
        refine List.Nodup.append hn1 (List.nodup_singleton c) ?_
        intro a ha hb
        have : a = c := by simpa using hb
        subst this
        exact hcnot1 ha
      · rw [← List.append_assoc]
        intro x hx d hd hne
        rcases List.mem_append.mp hx with hx | hx
        · exact List.mem_append_left _ (hc1 x hx d hd hne)
        · have hxc : x = c := by simpa using hx
          subst hxc
          rcases hm1 d hd with h | h
          · exact absurd h hne
          · exact List.mem_append_left _ h
      · rw [← List.append_assoc]
        intro pre x post hdec d hd hne
        rcases append_singleton_cases hdec with ⟨-, rfl, rfl⟩ | ⟨post', -, hpre⟩
        · rcases hm1 d hd with h | h
          · exact absurd h hne
          · exact h
        · exact ho1 pre x post' hpre d hd hne
      · rw [← List.append_assoc]
        exact List.mem_append_right _ (by simp)
      · intro x hx
        rcases List.mem_append.mp hx with hx | hx
        · obtain ⟨d, hdmem, hdc, hrx⟩ := hr1 x hx
          exact Relation.ReflTransGen.head ⟨hdmem, hdc⟩ hrx
        · have : x = c := by simpa using hx
          subst this
          exact Relation.ReflTransGen.refl

/-- Claim C5: when the dependency relation reachable from the walk's roots is
acyclic apart from self-references (witnessed by a rank function decreasing
along reachable non-self edges) and the fuel exceeds every root's rank, the
postorder walk visits exactly the crates reachable from the roots, each
exactly once, and every crate appears only after all of its non-self
dependencies; for the local crate (`CrateNum` 0) the roots are all loaded
crates, otherwise the given crate. -/
theorem c5_postorder (deps : Nat → List Nat) (loaded : List Nat) (cnum : Nat)
    (rank : Nat → Nat) (fuel : Nat)
    (hrank : ∀ r ∈ (if cnum = 0 then loaded else [cnum]), ∀ a, Reaches deps r a →
      ∀ b ∈ deps a, b ≠ a → rank b < rank a)
    (hfuel : ∀ r ∈ (if cnum = 0 then loaded else [cnum]), rank r < fuel) :
    (crate_dependencies_in_postorder deps loaded fuel cnum).Nodup ∧
      (∀ x, x ∈ crate_dependencies_in_postorder deps loaded fuel cnum ↔
        ∃ r ∈ (if cnum = 0 then loaded else [cnum]), Reaches deps r x) ∧
      postOrdered deps (crate_dependencies_in_postorder deps loaded fuel cnum) := by
  by_cases hc0 : cnum = 0
  · subst hc0
    rw [if_pos rfl] at hrank hfuel
    have rootsFold : ∀ (rs : List Nat) (acc : List Nat),
        (∀ r ∈ rs, ∀ a, Reaches deps r a → ∀ b ∈ deps a, b ≠ a → rank b < rank a) →
        (∀ r ∈ rs, rank r < fuel) →
        acc.Nodup → depClosed deps acc → postOrdered deps acc →
        ∃ ext, rs.foldl (fun a c => pushDeps deps fuel a c) acc = acc ++ ext ∧
          (acc ++ ext).Nodup ∧ depClosed deps (acc ++ ext) ∧
          postOrdered deps (acc ++ ext) ∧
          (∀ r ∈ rs, r ∈ acc ++ ext) ∧ (∀ x ∈ ext, ∃ r ∈ rs, Reaches deps r x) := by
      intro rs
      induction rs with
      | nil =>
        intro acc _ _ h1 h2 h3
        exact ⟨[], by simp, by simpa using h1, by simpa using h2, by simpa using h3,
          by simp, by simp⟩
      | cons r rs ihr =>
        intro acc hrk hfl h1 h2 h3
        rw [List.foldl_cons]
        obtain ⟨ext1, he1, hn1, hc1, ho1, hm1, hr1⟩ :=
          pushDeps_spec deps rank fuel r acc (hfl r (by simp)) (hrk r (by simp)) h1 h2 h3
        rw [he1]
        obtain ⟨ext2, he2, hn2, hc2, ho2, hm2, hr2⟩ :=
          ihr (acc ++ ext1) (fun r' h' => hrk r' (List.mem_cons_of_mem _ h'))
            (fun r' h' => hfl r' (List.mem_cons_of_mem _ h')) hn1 hc1 ho1
        refine ⟨ext1 ++ ext2, ?_, ?_, ?_, ?_, ?_, ?_⟩
        · rw [he2, List.append_assoc]
        · rw [← List.append_assoc]
          exact hn2
        · rw [← List.append_assoc]
          exact hc2
        · rw [← List.append_assoc]
          exact ho2
        · intro r' hr'
          rcases List.mem_cons.mp hr' with rfl | hr'
          · rw [← List.append_assoc]
            exact List.mem_append_left _ hm1
          · rw [← List.append_assoc]
            exact hm2 r' hr'
        · intro x hx
          rcases List.mem_append.mp hx with hx | hx
          · exact ⟨r, by simp, hr1 x hx⟩
          · obtain ⟨r', hr', hrx⟩ := hr2 x hx
            exact ⟨r', List.mem_cons_of_mem _ hr', hrx⟩
    obtain ⟨ext, he, hn, hc, ho, hm, hr⟩ :=
      rootsFold loaded [] hrank hfuel (by simp)
        (by intro x hx; simp at hx)
        (by intro pre x post h; exact absurd h (by simp))
    have h0 : crate_dependencies_in_postorder deps loaded fuel 0 =
        loaded.foldl (fun a c => pushDeps deps fuel a c) [] := by
      rw [crate_dependencies_in_postorder, if_pos rfl]
    rw [h0, he]
    refine ⟨by simpa using hn, ?_, by simpa using ho⟩
    intro x
    rw [if_pos rfl]
    constructor
    · intro hx
      exact hr x (by simpa using hx)
    · rintro ⟨r, hrm, hreach⟩
      exact reaches_mem_of_closed deps ([] ++ ext) hc r x (hm r hrm) hreach
  · rw [if_neg hc0] at hrank hfuel
    obtain ⟨ext, he, hn, hc, ho, hm, hr⟩ :=
      pushDeps_spec deps rank fuel cnum [] (hfuel cnum (by simp)) (hrank cnum (by simp))
        (by simp) (by intro x hx; simp at hx)
        (by intro pre x post h; exact absurd h (by simp))
    have h0 : crate_dependencies_in_postorder deps loaded fuel cnum =
        pushDeps deps fuel [] cnum := by
      rw [crate_dependencies_in_postorder, if_neg hc0]
    rw [h0, he]
    refine ⟨by simpa using hn, ?_, by simpa using ho⟩
    intro x
    rw [if_neg hc0]
    constructor
    · intro hx
      exact ⟨cnum, by simp, hr x (by simpa using hx)⟩
    · rintro ⟨r, hrm, hreach⟩
      have hreq : r = cnum := by simpa using hrm
      subst hreq
      exact reaches_mem_of_closed deps ([] ++ ext) hc r x hm hreach

/-- Witness for `c5_postorder` on a one-crate graph with no dependencies. -/
theorem c5_witness :
    (crate_dependencies_in_postorder (fun _ => []) [] 1 7).Nodup ∧
      (∀ x, x ∈ crate_dependencies_in_postorder (fun _ => []) [] 1 7 ↔
        ∃ r ∈ (if 7 = 0 then ([] : List Nat) else [7]),
          Reaches (fun _ => []) r x) ∧
      postOrdered (fun _ => []) (crate_dependencies_in_postorder (fun _ => []) [] 1 7) :=
  c5_postorder (fun _ => []) [] 7 (fun _ => 0) 1
    (by intro r hr a ha b hb; simp at hb)
    (by intro r hr; exact Nat.zero_lt_one)
